import Mathlib

/-!
# Framed transport (`framed.go`, package `thrift`)

A shallow embedding of `FramedReadWriteCloser` and of the standard-library
routines its methods call (`binary.Read`, `binary.Write`, `io.ReadFull`,
`io.CopyN`, `io.Copy`, `bytes.Buffer`), followed by the properties of the
framing layer.

Conventions of the embedding.

* A byte is a `Fin 256`; a `bytes.Buffer` is the list of its unread bytes.
* Go `int` is 64 bits wide; sizes are kept as `Int`/`Nat`, and the one
  conversion that truncates, `uint32(f.wbuf.Len())`, is written `% 2 ^ 32`.
* A method returns its Go results together with the receiver after the call.
  A `Read` reports the bytes it stored at the front of the destination; the
  count `n` of the Go result is the length of that list.
* The wrapped `io.ReadWriteCloser` is a scripted stream: inbound data arrives
  in segments (a `Read` never crosses a segment boundary, so short reads are
  part of the model), the stream ends with `io.EOF` or with a failure of its
  own, and every `Write` either succeeds in full or hits a scripted fault.
-/

namespace Thrift

/-- One octet. -/
abbrev Byte := Fin 256

/-- The error values that can come out of the transport.  `stream c` stands for
any failure raised by the wrapped stream itself (a value that is none of the
standard-library sentinels and is not produced by the framing layer). -/
inductive Error where
  | EOF
  | ErrUnexpectedEOF
  | ErrShortWrite
  | stream (code : Nat)
  | ErrFrameTooBig (Size MaxSize : Int)
  deriving DecidableEq, Repr

/-- The constant `DefaultMaxFrameSize = 1024 * 1024`. -/
def DefaultMaxFrameSize : Int := 1024 * 1024

/-! ## The wrapped stream -/

/-- A scripted fault of one `Write` call on the wrapped stream: the call takes
only the first `accepted` bytes and returns `err` (`none`: a short write that
reports no error). -/
structure WriteFault where
  accepted : Nat
  err : Option Nat
  deriving DecidableEq, Repr

/-- The wrapped `io.ReadWriteCloser`.

* `rsegs`: inbound bytes not yet read, in the segments in which they arrive;
* `rend`: what a `Read` returns once the inbound bytes are used up
  (`none`: `io.EOF`, `some c`: the stream failure `c`);
* `out`: every byte accepted by `Write` so far;
* `wscript`: outcomes of the coming `Write` calls (`none`: the call succeeds in
  full; past the end of the script every call succeeds in full);
* `closeErr`: the result of `Close`; `closed`: how often `Close` was called. -/
structure Wrapped where
  rsegs : List (List Byte)
  rend : Option Nat
  out : List Byte
  wscript : List (Option WriteFault)
  closeErr : Option Nat
  closed : Nat
  deriving DecidableEq, Repr

/-- The inbound bytes not yet consumed, as one sequence. -/
def Wrapped.inbound (w : Wrapped) : List Byte := w.rsegs.flatten

/-- The error a `Read` returns at the end of the inbound data. -/
def Wrapped.endError (w : Wrapped) : Error :=
  match w.rend with
  | none => Error.EOF
  | some c => Error.stream c

/-- No coming `Write` on the stream is scripted to fail. -/
def Wrapped.NonFailing (w : Wrapped) : Prop := ∀ o ∈ w.wscript, o = none

instance (w : Wrapped) : Decidable w.NonFailing := by
  unfold Wrapped.NonFailing; infer_instance

/-- `Read(p)` of the wrapped stream with `len(p) = cap`: the bytes stored in
`p`, the error, the stream afterwards.  Data comes from the first pending
segment only. -/
def Wrapped.Read (w : Wrapped) (cap : Nat) : List Byte × Option Error × Wrapped :=
  match w.rsegs with
  | [] => ([], some w.endError, w)
  | seg :: rest =>
    if seg.length ≤ cap then (seg, none, { w with rsegs := rest })
    else (seg.take cap, none, { w with rsegs := seg.drop cap :: rest })

/-- `Write(p)` of the wrapped stream: the count, the error, the stream
afterwards. -/
def Wrapped.Write (w : Wrapped) (p : List Byte) : Nat × Option Error × Wrapped :=
  match w.wscript with
  | [] => (p.length, none, { w with out := w.out ++ p })
  | none :: t => (p.length, none, { w with out := w.out ++ p, wscript := t })
  | some flt :: t =>
    (min flt.accepted p.length, flt.err.map Error.stream,
      { w with out := w.out ++ p.take flt.accepted, wscript := t })

/-- `Close()` of the wrapped stream. -/
def Wrapped.Close (w : Wrapped) : Option Error × Wrapped :=
  (w.closeErr.map Error.stream, { w with closed := w.closed + 1 })

/-- Number of `Read` calls after which the inbound data is certainly used up:
every successful `Read` with a positive capacity removes a byte or a segment. -/
def Wrapped.readBudget (w : Wrapped) : Nat :=
  (w.rsegs.map (fun seg => seg.length + 1)).sum

/-! ## `encoding/binary` -/

/-- `binary.BigEndian.Uint32(b)`:
`uint32(b[3]) | uint32(b[2])<<8 | uint32(b[1])<<16 | uint32(b[0])<<24`. -/
def BigEndian.Uint32 (b : List Byte) : Nat :=
  match b with
  | [b0, b1, b2, b3] => b3.val ||| b2.val <<< 8 ||| b1.val <<< 16 ||| b0.val <<< 24
  | _ => 0

/-- `binary.BigEndian.PutUint32(b, v)`:
`b[0] = byte(v >> 24); b[1] = byte(v >> 16); b[2] = byte(v >> 8); b[3] = byte(v)`. -/
def BigEndian.PutUint32 (v : Nat) : List Byte :=
  [Fin.ofNat (v >>> 24), Fin.ofNat (v >>> 16), Fin.ofNat (v >>> 8), Fin.ofNat v]

/-! ## `io` -/

/-- The loop of `io.ReadAtLeast(r, buf, min)` with `len(buf) = min`, as called by
`io.ReadFull`: `for n < min && err == nil { nn, err = r.Read(buf[n:]); n += nn }`.
`need` is `min - n`, `acc` the bytes stored so far.  The first argument bounds
the number of iterations; `io.ReadFull` passes a bound the loop does not reach. -/
def io.ReadAtLeastLoop : Nat → Wrapped → Nat → List Byte → List Byte × Option Error × Wrapped
  | 0, w, _, acc => (acc, none, w)
  | fuel + 1, w, need, acc =>
    if need = 0 then (acc, none, w)
    else
      match w.Read need with
      | (bs, some e, w1) => (acc ++ bs, some e, w1)
      | (bs, none, w1) => io.ReadAtLeastLoop fuel w1 (need - bs.length) (acc ++ bs)

/-- `io.ReadFull(r, buf)` with `len(buf) = size`: the bytes read, the error,
the stream afterwards.  After the loop: `if n >= min { err = nil } else if
n > 0 && err == EOF { err = ErrUnexpectedEOF }`. -/
def io.ReadFull (w : Wrapped) (size : Nat) : List Byte × Option Error × Wrapped :=
  match io.ReadAtLeastLoop (w.readBudget + 1) w size [] with
  | (bs, err, w1) =>
    if bs.length ≥ size then (bs, none, w1)
    else if bs.length > 0 ∧ err = some Error.EOF then (bs, some Error.ErrUnexpectedEOF, w1)
    else (bs, err, w1)

/-- `binary.Read(r, binary.BigEndian, &frameSize)` for a `uint32`: four bytes
through `io.ReadFull`, then decoded; an error of `io.ReadFull` is returned as
it is. -/
def binary.Read (w : Wrapped) : Except Error Nat × Wrapped :=
  match io.ReadFull w 4 with
  | (_, some e, w1) => (Except.error e, w1)
  | (bs, none, w1) => (Except.ok (BigEndian.Uint32 bs), w1)

/-- `binary.Write(w, binary.BigEndian, frameSize)` for a `uint32`: one `Write` of
the four encoded bytes, whose error is returned and whose count is dropped. -/
def binary.Write (w : Wrapped) (v : Nat) : Option Error × Wrapped :=
  match w.Write (BigEndian.PutUint32 v) with
  | (_, err, w1) => (err, w1)

/-- `(*io.LimitedReader).Read(p)` over the wrapped stream, `limit` being the
field `N` and `cap` being `len(p)`: `if l.N <= 0 { return 0, EOF }`, then `p` is
cut to `l.N` bytes, the wrapped stream is read, and `l.N` goes down by the count. -/
def io.LimitedReader.Read (w : Wrapped) (limit cap : Nat) :
    List Byte × Option Error × Wrapped × Nat :=
  if limit = 0 then ([], some Error.EOF, w, limit)
  else
    match w.Read (min cap limit) with
    | (bs, err, w1) => (bs, err, w1, limit - bs.length)

/-! ## `bytes.Buffer` -/

/-- The constant `bytes.MinRead`: the least free space `ReadFrom` offers to a
`Read` call. -/
def Buffer.MinRead : Nat := 512

/-- The loop of `(*bytes.Buffer).ReadFrom(r)` for `r` an `io.LimitedReader` over
the wrapped stream: read into the free space, append, stop with `nil` at
`io.EOF` and with the error at any other error.  The free space offered is at
least `MinRead`; the model offers `MinRead`.  Results: the buffer, the error,
the stream.  The first argument bounds the number of iterations; `ReadFrom`
passes a bound the loop does not reach. -/
def Buffer.ReadFromLoop : Nat → List Byte → Wrapped → Nat → List Byte × Option Error × Wrapped
  | 0, buf, w, _ => (buf, none, w)
  | fuel + 1, buf, w, limit =>
    match io.LimitedReader.Read w limit Buffer.MinRead with
    | (bs, some e, w1, _) =>
      if e = Error.EOF then (buf ++ bs, none, w1) else (buf ++ bs, some e, w1)
    | (bs, none, w1, limit1) => Buffer.ReadFromLoop fuel (buf ++ bs) w1 limit1

/-- `(*bytes.Buffer).ReadFrom(io.LimitReader(src, n))`: the buffer afterwards,
the count of bytes read, the error, the stream afterwards. -/
def Buffer.ReadFrom (buf : List Byte) (w : Wrapped) (n : Nat) :
    List Byte × Nat × Option Error × Wrapped :=
  match Buffer.ReadFromLoop (w.readBudget + 1) buf w n with
  | (buf1, err, w1) => (buf1, buf1.length - buf.length, err, w1)

/-- `(*bytes.Buffer).Read(p)` with `len(p) = cap`: on an empty buffer
`if len(p) == 0 { return 0, nil }; return 0, io.EOF`, otherwise
`n = copy(p, b.buf[b.off:]); b.off += n; return n, nil`. -/
def Buffer.Read (buf : List Byte) (cap : Nat) : (List Byte × Option Error) × List Byte :=
  if buf.length = 0 then
    if cap = 0 then (([], none), []) else (([], some Error.EOF), [])
  else ((buf.take cap, none), buf.drop cap)

/-- `(*bytes.Buffer).Write(p)`: appends `p`, returns `len(p), nil`. -/
def Buffer.Write (buf : List Byte) (p : List Byte) : (Nat × Option Error) × List Byte :=
  ((p.length, none), buf ++ p)

/-- `(*bytes.Buffer).WriteTo(w)`: one `Write` of the unread bytes; the bytes the
stream took leave the buffer; a count short of the length without an error is
`io.ErrShortWrite`; after a complete write the buffer is reset. -/
def Buffer.WriteTo (buf : List Byte) (w : Wrapped) : (Nat × Option Error) × List Byte × Wrapped :=
  if buf.length > 0 then
    match w.Write buf with
    | (m, some e, w1) => ((m, some e), buf.drop m, w1)
    | (m, none, w1) =>
      if m ≠ buf.length then ((m, some Error.ErrShortWrite), buf.drop m, w1)
      else ((m, none), [], w1)
  else ((0, none), [], w)

/-- `io.CopyN(dst, src, n)` for `dst` a `*bytes.Buffer` and `src` the wrapped
stream.  `io.Copy(dst, io.LimitReader(src, n))` goes through `dst.ReadFrom`;
then `if written == n { return n, nil }; if written < n && err == nil
{ err = EOF }`.  Results: the buffer, the count, the error, the stream. -/
def io.CopyN (dst : List Byte) (w : Wrapped) (n : Nat) :
    List Byte × Nat × Option Error × Wrapped :=
  match Buffer.ReadFrom dst w n with
  | (dst1, written, err, w1) =>
    if written = n then (dst1, n, none, w1)
    else if written < n ∧ err = none then (dst1, written, some Error.EOF, w1)
    else (dst1, written, err, w1)

/-- `io.Copy(dst, src)` for `src` a `*bytes.Buffer` and `dst` the wrapped
stream: `src.WriteTo(dst)`. -/
def io.Copy (w : Wrapped) (src : List Byte) : (Nat × Option Error) × List Byte × Wrapped :=
  Buffer.WriteTo src w

/-! ## `FramedReadWriteCloser` -/

/-- The struct `FramedReadWriteCloser`. -/
structure FramedReadWriteCloser where
  wrapped : Wrapped
  maxFrameSize : Int
  rbuf : List Byte
  wbuf : List Byte
  deriving DecidableEq, Repr

/-- `NewFramedReadWriteCloser(wrapped, maxFrameSize)`. -/
def NewFramedReadWriteCloser (wrapped : Wrapped) (maxFrameSize : Int) : FramedReadWriteCloser :=
  let maxFrameSize := if maxFrameSize = 0 then DefaultMaxFrameSize else maxFrameSize
  { wrapped := wrapped, maxFrameSize := maxFrameSize, rbuf := [], wbuf := [] }

/-- `(*FramedReadWriteCloser).Read(p)` with `len(p) = cap`: the bytes delivered
and the error, and the transport afterwards. -/
def FramedReadWriteCloser.Read (f : FramedReadWriteCloser) (cap : Nat) :
    (List Byte × Option Error) × FramedReadWriteCloser :=
  if f.rbuf.length = 0 then
    let f0 := { f with rbuf := [] }
    match binary.Read f0.wrapped with
    | (Except.error err, w1) => (([], some err), { f0 with wrapped := w1 })
    | (Except.ok frameSize, w1) =>
      if (frameSize : Int) > f0.maxFrameSize then
        (([], some (Error.ErrFrameTooBig (frameSize : Int) f0.maxFrameSize)), { f0 with wrapped := w1 })
      else
        match io.CopyN f0.rbuf w1 frameSize with
        | (rbuf1, _, some err, w2) => (([], some err), { f0 with wrapped := w2, rbuf := rbuf1 })
        | (rbuf1, _, none, w2) =>
          match Buffer.Read rbuf1 cap with
          | (res, rbuf2) => (res, { f0 with wrapped := w2, rbuf := rbuf2 })
  else
    match Buffer.Read f.rbuf cap with
    | (res, rbuf1) => (res, { f with rbuf := rbuf1 })

/-- `(*FramedReadWriteCloser).Write(p)`: the count and the error, and the
transport afterwards. -/
def FramedReadWriteCloser.Write (f : FramedReadWriteCloser) (p : List Byte) :
    (Nat × Option Error) × FramedReadWriteCloser :=
  match Buffer.Write f.wbuf p with
  | ((n, some err), wbuf1) => ((n, some err), { f with wbuf := wbuf1 })
  | ((n, none), wbuf1) =>
    if (wbuf1.length : Int) > f.maxFrameSize then
      ((n, some (Error.ErrFrameTooBig (wbuf1.length : Int) f.maxFrameSize)), { f with wbuf := wbuf1 })
    else ((n, none), { f with wbuf := wbuf1 })

/-- `(*FramedReadWriteCloser).Close()`. -/
def FramedReadWriteCloser.Close (f : FramedReadWriteCloser) :
    Option Error × FramedReadWriteCloser :=
  match f.wrapped.Close with
  | (err, w1) => (err, { f with wrapped := w1 })

/-- `(*FramedReadWriteCloser).Flush()`: the error and the transport afterwards. -/
def FramedReadWriteCloser.Flush (f : FramedReadWriteCloser) :
    Option Error × FramedReadWriteCloser :=
  let frameSize := f.wbuf.length % 2 ^ 32
  if frameSize > 0 then
    match binary.Write f.wrapped frameSize with
    | (some err, w1) => (some err, { f with wrapped := w1 })
    | (none, w1) =>
      match io.Copy w1 f.wbuf with
      | ((_, err), _, w2) => (err, { f with wrapped := w2, wbuf := [] })
  else (none, f)

/-! ## Sequences of calls -/

/-- `Write(p)` for each `p` of `ps` in order, errors ignored: the transport
afterwards. -/
def writeAll : FramedReadWriteCloser → List (List Byte) → FramedReadWriteCloser
  | f, [] => f
  | f, p :: ps => writeAll (f.Write p).2 ps

/-- `Read` with the destination capacities `caps` in order, every call made
whatever the earlier ones returned: the result of each call, and the transport
afterwards. -/
def readEach : FramedReadWriteCloser → List Nat →
    List (List Byte × Option Error) × FramedReadWriteCloser
  | f, [] => ([], f)
  | f, c :: cs =>
    match f.Read c with
    | (res, f1) =>
      match readEach f1 cs with
      | (more, f2) => (res :: more, f2)

/-- `Read` with the destination capacities `caps` in order, stopping at the first
call that returns an error: the bytes delivered by all the calls made, the first
error (`none` when `caps` ran out before any), and the transport afterwards. -/
def readAll : FramedReadWriteCloser → List Nat →
    List Byte × Option Error × FramedReadWriteCloser
  | f, [] => ([], none, f)
  | f, c :: cs =>
    match f.Read c with
    | ((bs, some e), f1) => (bs, some e, f1)
    | ((bs, none), f1) =>
      match readAll f1 cs with
      | (more, e, f2) => (bs ++ more, e, f2)

/-- `Write(msg)` followed by `Flush()` for each `msg` of `msgs` in order: the
errors the calls returned, two for each message, and the transport afterwards. -/
def encodeAll : FramedReadWriteCloser → List (List Byte) →
    List (Option Error) × FramedReadWriteCloser
  | f, [] => ([], f)
  | f, msg :: msgs =>
    match f.Write msg with
    | ((_, e1), f1) =>
      match f1.Flush with
      | (e2, f2) =>
        match encodeAll f2 msgs with
        | (es, f3) => (e1 :: e2 :: es, f3)

/-- The first `Write` a `Flush` makes on the wrapped stream when the computed
frame size is not zero, the one inside `binary.Write`: the count, the error, the
stream afterwards. -/
def FramedReadWriteCloser.headerWrite (f : FramedReadWriteCloser) :
    Nat × Option Error × Wrapped :=
  f.wrapped.Write (BigEndian.PutUint32 (f.wbuf.length % 2 ^ 32))

/-- The `Write` that `io.Copy` makes on the stream the header write left behind:
the count, the error, the stream afterwards. -/
def FramedReadWriteCloser.payloadWrite (f : FramedReadWriteCloser) :
    Nat × Option Error × Wrapped :=
  f.headerWrite.2.2.Write f.wbuf

/-- The wrapped stream keeps to the contract of `io.Writer`: a `Write` that takes
fewer bytes than it was given returns an error.  In the script: every fault
carries an error. -/
def Wrapped.WriterContract (w : Wrapped) : Prop :=
  ∀ flt, some flt ∈ w.wscript → flt.err ≠ none

instance (w : Wrapped) : Decidable w.WriterContract := by
  unfold Wrapped.WriterContract
  exact decidable_of_iff (∀ o ∈ w.wscript, ∀ flt, o = some flt → flt.err ≠ none)
    ⟨fun h flt hm => h (some flt) hm flt rfl, fun h o ho flt e => h flt (e ▸ ho)⟩

/-! ## Lemmas on the byte order -/

theorem BigEndian.Uint32_eq (b0 b1 b2 b3 : Byte) :
    BigEndian.Uint32 [b0, b1, b2, b3]
      = b0.val * 2 ^ 24 + b1.val * 2 ^ 16 + b2.val * 2 ^ 8 + b3.val := by
  have h0 := b0.isLt
  have h1 := b1.isLt
  have h2 := b2.isLt
  have h3 := b3.isLt
  have e1 : b3.val ||| b2.val <<< 8 = 2 ^ 8 * b2.val + b3.val := by
    rw [Nat.lor_comm, Nat.shiftLeft_eq, Nat.mul_comm]
    exact (Nat.mul_add_lt_is_or (by omega) _).symm
  have e2 : (2 ^ 8 * b2.val + b3.val) ||| b1.val <<< 16
      = 2 ^ 16 * b1.val + (2 ^ 8 * b2.val + b3.val) := by
    rw [Nat.lor_comm, Nat.shiftLeft_eq, Nat.mul_comm]
    exact (Nat.mul_add_lt_is_or (by omega) _).symm
  have e3 : (2 ^ 16 * b1.val + (2 ^ 8 * b2.val + b3.val)) ||| b0.val <<< 24
      = 2 ^ 24 * b0.val + (2 ^ 16 * b1.val + (2 ^ 8 * b2.val + b3.val)) := by
    rw [Nat.lor_comm, Nat.shiftLeft_eq, Nat.mul_comm]
    exact (Nat.mul_add_lt_is_or (by omega) _).symm
  simp only [BigEndian.Uint32]
  rw [e1, e2, e3]
  omega

theorem BigEndian.Uint32_lt (b0 b1 b2 b3 : Byte) :
    BigEndian.Uint32 [b0, b1, b2, b3] < 2 ^ 32 := by
  rw [BigEndian.Uint32_eq]
  have h0 := b0.isLt
  have h1 := b1.isLt
  have h2 := b2.isLt
  have h3 := b3.isLt
  omega

theorem BigEndian.PutUint32_length (v : Nat) : (BigEndian.PutUint32 v).length = 4 := rfl

theorem BigEndian.Uint32_PutUint32 (v : Nat) (hv : v < 2 ^ 32) :
    BigEndian.Uint32 (BigEndian.PutUint32 v) = v := by
  unfold BigEndian.PutUint32
  rw [BigEndian.Uint32_eq]
  simp only [Fin.ofNat, Nat.shiftRight_eq_div_pow]
  omega


/-! ## Lemmas on the wrapped stream and the read loops -/

theorem Wrapped.rsegs_eta (w : Wrapped) : { w with rsegs := w.rsegs } = w := by
  cases w; rfl

theorem io.ReadAtLeastLoop_zero (fuel : Nat) (w : Wrapped) (acc : List Byte) :
    io.ReadAtLeastLoop fuel w 0 acc = (acc, none, w) := by
  cases fuel <;> simp [io.ReadAtLeastLoop]

/-- With enough inbound bytes the loop of `io.ReadAtLeast` stores exactly the next
`need` bytes, whatever the segmentation, and leaves the rest in the stream. -/
theorem io.ReadAtLeastLoop_enough (fuel : Nat) :
    ∀ (w : Wrapped) (need : Nat) (acc : List Byte),
      w.readBudget < fuel → need ≤ w.inbound.length →
      ∃ segs, io.ReadAtLeastLoop fuel w need acc
          = (acc ++ w.inbound.take need, none, { w with rsegs := segs })
        ∧ segs.flatten = w.inbound.drop need := by
  induction fuel with
  | zero => intro w need acc h; omega
  | succ fuel ih =>
    intro w need acc hb hn
    by_cases h0 : need = 0
    · subst h0
      refine ⟨w.rsegs, ?_, ?_⟩
      · simp [io.ReadAtLeastLoop, Wrapped.rsegs_eta]
      · simp [Wrapped.inbound]
    · obtain ⟨segs, rend, out, ws, ce, cl⟩ := w
      cases segs with
      | nil => simp [Wrapped.inbound] at hn; omega
      | cons seg rest =>
        simp only [Wrapped.inbound, List.flatten_cons, List.length_append,
          Wrapped.readBudget, List.map_cons, List.sum_cons] at hn hb ⊢
        by_cases hs : seg.length ≤ need
        · obtain ⟨segs1, e1, e2⟩ := ih ⟨rest, rend, out, ws, ce, cl⟩ (need - seg.length)
            (acc ++ seg) (by simp only [Wrapped.readBudget]; omega)
            (by simp only [Wrapped.inbound]; omega)
          refine ⟨segs1, ?_, ?_⟩
          · simp only [io.ReadAtLeastLoop, h0, if_false, Wrapped.Read, hs, if_true]
            rw [e1]
            simp [Wrapped.inbound, List.take_append_eq_append_take, List.take_of_length_le hs]
          · rw [e2]
            simp [Wrapped.inbound, List.drop_append_eq_append_drop, List.drop_of_length_le hs]
        · have hlt : need < seg.length := by omega
          refine ⟨seg.drop need :: rest, ?_, ?_⟩
          · simp only [io.ReadAtLeastLoop, h0, if_false, Wrapped.Read, hs]
            have hl : (List.take need seg).length = need := by
              simp [List.length_take]; omega
            rw [hl, Nat.sub_self, io.ReadAtLeastLoop_zero]
            simp [List.take_append_eq_append_take, Nat.sub_eq_zero_of_le (Nat.le_of_lt hlt)]
          · simp [List.drop_append_eq_append_drop, Nat.sub_eq_zero_of_le (Nat.le_of_lt hlt)]

/-- With too few inbound bytes the loop of `io.ReadAtLeast` stores all of them and
stops at the error that ends the stream. -/
theorem io.ReadAtLeastLoop_short (fuel : Nat) :
    ∀ (w : Wrapped) (need : Nat) (acc : List Byte),
      w.readBudget < fuel → w.inbound.length < need →
      io.ReadAtLeastLoop fuel w need acc
        = (acc ++ w.inbound, some w.endError, { w with rsegs := [] }) := by
  induction fuel with
  | zero => intro w need acc h; omega
  | succ fuel ih =>
    intro w need acc hb hn
    have h0 : need ≠ 0 := by omega
    obtain ⟨segs, rend, out, ws, ce, cl⟩ := w
    cases segs with
    | nil => simp [io.ReadAtLeastLoop, h0, Wrapped.Read, Wrapped.inbound, Wrapped.endError]
    | cons seg rest =>
      simp only [Wrapped.inbound, List.flatten_cons, List.length_append,
        Wrapped.readBudget, List.map_cons, List.sum_cons] at hn hb ⊢
      have hs : seg.length ≤ need := by omega
      have e1 := ih ⟨rest, rend, out, ws, ce, cl⟩ (need - seg.length)
        (acc ++ seg) (by simp only [Wrapped.readBudget]; omega)
        (by simp only [Wrapped.inbound]; omega)
      simp only [io.ReadAtLeastLoop, h0, if_false, Wrapped.Read, hs, if_true]
      rw [e1]
      simp [Wrapped.inbound, Wrapped.endError]


theorem Buffer.MinRead_pos : 0 < Buffer.MinRead := by decide

theorem take_after_cut (seg r : List Byte) (c limit : Nat) (hc : c ≤ seg.length)
    (hcl : c ≤ limit) :
    seg.take c ++ (seg.drop c ++ r).take (limit - c) = (seg ++ r).take limit := by
  have hl : (seg.take c).length = c := by rw [List.length_take]; omega
  have e : seg ++ r = seg.take c ++ (seg.drop c ++ r) := by
    rw [← List.append_assoc, List.take_append_drop]
  have key : (seg ++ r).take limit = seg.take c ++ (seg.drop c ++ r).take (limit - c) := by
    conv_lhs => rw [e]
    rw [List.take_append_eq_append_take, hl, List.take_of_length_le (by omega)]
  exact key.symm

theorem drop_after_cut (seg r : List Byte) (c limit : Nat) (hc : c ≤ seg.length)
    (hcl : c ≤ limit) :
    (seg.drop c ++ r).drop (limit - c) = (seg ++ r).drop limit := by
  have hl : (seg.take c).length = c := by rw [List.length_take]; omega
  have e : seg ++ r = seg.take c ++ (seg.drop c ++ r) := by
    rw [← List.append_assoc, List.take_append_drop]
  have key : (seg ++ r).drop limit = (seg.drop c ++ r).drop (limit - c) := by
    conv_lhs => rw [e]
    rw [List.drop_append_eq_append_drop, hl, List.drop_of_length_le (by omega)]
    simp
  exact key.symm

/-- With at least `limit` inbound bytes the loop of `ReadFrom` over a limited
reader appends exactly the next `limit` bytes and reports no error. -/
theorem Buffer.ReadFromLoop_enough (fuel : Nat) :
    ∀ (w : Wrapped) (limit : Nat) (buf : List Byte),
      w.readBudget < fuel → limit ≤ w.inbound.length →
      ∃ segs, Buffer.ReadFromLoop fuel buf w limit
          = (buf ++ w.inbound.take limit, none, { w with rsegs := segs })
        ∧ segs.flatten = w.inbound.drop limit := by
  induction fuel with
  | zero => intro w limit buf h; omega
  | succ fuel ih =>
    intro w limit buf hb hn
    by_cases h0 : limit = 0
    · subst h0
      refine ⟨w.rsegs, ?_, ?_⟩
      · simp [Buffer.ReadFromLoop, io.LimitedReader.Read, Wrapped.rsegs_eta]
      · simp [Wrapped.inbound]
    · obtain ⟨segs, rend, out, ws, ce, cl⟩ := w
      have hm := Buffer.MinRead_pos
      cases segs with
      | nil => simp [Wrapped.inbound] at hn; omega
      | cons seg rest =>
        simp only [Wrapped.inbound, List.flatten_cons, List.length_append,
          Wrapped.readBudget, List.map_cons, List.sum_cons] at hn hb ⊢
        by_cases hs : seg.length ≤ min Buffer.MinRead limit
        · have hs2 : seg.length ≤ limit := le_trans hs (Nat.min_le_right _ _)
          obtain ⟨segs1, e1, e2⟩ := ih ⟨rest, rend, out, ws, ce, cl⟩ (limit - seg.length)
            (buf ++ seg) (by simp only [Wrapped.readBudget]; omega)
            (by simp only [Wrapped.inbound]; omega)
          refine ⟨segs1, ?_, ?_⟩
          · simp only [Buffer.ReadFromLoop, io.LimitedReader.Read, h0, if_false, Wrapped.Read,
              hs, if_true]
            rw [e1]
            simp [Wrapped.inbound, List.take_append_eq_append_take, List.take_of_length_le hs2]
          · rw [e2]
            simp [Wrapped.inbound, List.drop_append_eq_append_drop, List.drop_of_length_le hs2]
        · have hc : min Buffer.MinRead limit < seg.length := by omega
          have hc0 : 0 < min Buffer.MinRead limit := by
            rw [Nat.lt_min]; exact ⟨hm, Nat.pos_of_ne_zero h0⟩
          have hcl : min Buffer.MinRead limit ≤ limit := Nat.min_le_right _ _
          have hl : (List.take (min Buffer.MinRead limit) seg).length
              = min Buffer.MinRead limit := by
            rw [List.length_take]; omega
          obtain ⟨segs1, e1, e2⟩ := ih
            ⟨seg.drop (min Buffer.MinRead limit) :: rest, rend, out, ws, ce, cl⟩
            (limit - min Buffer.MinRead limit) (buf ++ seg.take (min Buffer.MinRead limit))
            (by simp only [Wrapped.readBudget, List.map_cons, List.sum_cons, List.length_drop]
                omega)
            (by simp only [Wrapped.inbound, List.flatten_cons, List.length_append,
                  List.length_drop]
                omega)
          refine ⟨segs1, ?_, ?_⟩
          · simp only [Buffer.ReadFromLoop, io.LimitedReader.Read, h0, if_false, Wrapped.Read, hs]
            rw [hl, e1]
            simp only [Wrapped.inbound, List.flatten_cons, List.append_assoc, Prod.mk.injEq,
              List.append_cancel_left_eq, and_true]
            exact take_after_cut seg rest.flatten _ limit (Nat.le_of_lt hc) hcl
          · rw [e2]
            simp only [Wrapped.inbound, List.flatten_cons]
            exact drop_after_cut seg rest.flatten _ limit (Nat.le_of_lt hc) hcl


/-- With fewer than `limit` inbound bytes the loop of `ReadFrom` appends all of
them; the end of the stream is `nil` when it is `io.EOF` and the failure
otherwise. -/
theorem Buffer.ReadFromLoop_short (fuel : Nat) :
    ∀ (w : Wrapped) (limit : Nat) (buf : List Byte),
      w.readBudget < fuel → w.inbound.length < limit →
      Buffer.ReadFromLoop fuel buf w limit
        = (buf ++ w.inbound, if w.endError = Error.EOF then none else some w.endError,
            { w with rsegs := [] }) := by
  induction fuel with
  | zero => intro w limit buf h; omega
  | succ fuel ih =>
    intro w limit buf hb hn
    have h0 : limit ≠ 0 := by omega
    have hm := Buffer.MinRead_pos
    obtain ⟨segs, rend, out, ws, ce, cl⟩ := w
    cases segs with
    | nil =>
      simp only [Buffer.ReadFromLoop, io.LimitedReader.Read, h0, if_false, Wrapped.Read,
        Wrapped.inbound, List.flatten_nil, List.append_nil]
      split <;> rfl
    | cons seg rest =>
      simp only [Wrapped.inbound, List.flatten_cons, List.length_append,
        Wrapped.readBudget, List.map_cons, List.sum_cons] at hn hb ⊢
      by_cases hs : seg.length ≤ min Buffer.MinRead limit
      · have e1 := ih ⟨rest, rend, out, ws, ce, cl⟩ (limit - seg.length)
          (buf ++ seg) (by simp only [Wrapped.readBudget]; omega)
          (by simp only [Wrapped.inbound]; omega)
        simp only [Buffer.ReadFromLoop, io.LimitedReader.Read, h0, if_false, Wrapped.Read,
          hs, if_true]
        rw [e1]
        simp [Wrapped.inbound, Wrapped.endError]
      · have hc : min Buffer.MinRead limit < seg.length := by omega
        have hc0 : 0 < min Buffer.MinRead limit := by
          rw [Nat.lt_min]; exact ⟨hm, Nat.pos_of_ne_zero h0⟩
        have hcl : min Buffer.MinRead limit ≤ limit := Nat.min_le_right _ _
        have hl : (List.take (min Buffer.MinRead limit) seg).length
            = min Buffer.MinRead limit := by
          rw [List.length_take]; omega
        have e1 := ih
          ⟨seg.drop (min Buffer.MinRead limit) :: rest, rend, out, ws, ce, cl⟩
          (limit - min Buffer.MinRead limit) (buf ++ seg.take (min Buffer.MinRead limit))
          (by simp only [Wrapped.readBudget, List.map_cons, List.sum_cons, List.length_drop]
              omega)
          (by simp only [Wrapped.inbound, List.flatten_cons, List.length_append,
                List.length_drop]
              omega)
        simp only [Buffer.ReadFromLoop, io.LimitedReader.Read, h0, if_false, Wrapped.Read, hs]
        rw [hl, e1]
        simp only [Wrapped.inbound, List.flatten_cons, List.append_assoc, Wrapped.endError]
        rw [← List.append_assoc (List.take _ seg), List.take_append_drop]

/-- `io.ReadFull` on a stream that still holds `size` bytes. -/
theorem io.ReadFull_enough (w : Wrapped) (size : Nat) (h : size ≤ w.inbound.length) :
    ∃ segs, io.ReadFull w size = (w.inbound.take size, none, { w with rsegs := segs })
      ∧ segs.flatten = w.inbound.drop size := by
  obtain ⟨segs, e1, e2⟩ := io.ReadAtLeastLoop_enough (w.readBudget + 1) w size []
    (Nat.lt_succ_self _) h
  refine ⟨segs, ?_, e2⟩
  simp only [io.ReadFull, e1, List.nil_append]
  have hl : (List.take size w.inbound).length = size := by rw [List.length_take]; omega
  simp [hl]

/-- `io.ReadFull` on a stream that ends before `size` bytes: `io.EOF` becomes
`io.ErrUnexpectedEOF` when at least one byte was read. -/
theorem io.ReadFull_short (w : Wrapped) (size : Nat) (h : w.inbound.length < size) :
    io.ReadFull w size
      = (w.inbound,
          some (if 0 < w.inbound.length ∧ w.endError = Error.EOF then Error.ErrUnexpectedEOF
                else w.endError),
          { w with rsegs := [] }) := by
  have e1 := io.ReadAtLeastLoop_short (w.readBudget + 1) w size [] (Nat.lt_succ_self _) h
  simp only [io.ReadFull, e1, List.nil_append]
  have hl : ¬ (w.inbound.length ≥ size) := by omega
  simp only [hl, if_false, Option.some.injEq, gt_iff_lt]
  split <;> rfl

/-- `binary.Read` on a stream whose next four bytes are `b0 b1 b2 b3`. -/
theorem binary.Read_ok (w : Wrapped) (b0 b1 b2 b3 : Byte) (rest : List Byte)
    (h : w.inbound = [b0, b1, b2, b3] ++ rest) :
    ∃ segs, binary.Read w
        = (Except.ok (b0.val * 2 ^ 24 + b1.val * 2 ^ 16 + b2.val * 2 ^ 8 + b3.val),
            { w with rsegs := segs })
      ∧ segs.flatten = rest := by
  obtain ⟨segs, e1, e2⟩ := io.ReadFull_enough w 4 (by rw [h]; simp)
  refine ⟨segs, ?_, ?_⟩
  · simp only [binary.Read, e1, h]
    simp [BigEndian.Uint32_eq]
  · rw [e2, h]; simp

/-- `binary.Read` on a stream that ends before four bytes. -/
theorem binary.Read_short (w : Wrapped) (h : w.inbound.length < 4) :
    binary.Read w
      = (Except.error (if 0 < w.inbound.length ∧ w.endError = Error.EOF
                       then Error.ErrUnexpectedEOF else w.endError),
          { w with rsegs := [] }) := by
  simp only [binary.Read, io.ReadFull_short w 4 h]

/-- `io.CopyN` on a stream that still holds `n` bytes. -/
theorem io.CopyN_enough (dst : List Byte) (w : Wrapped) (n : Nat)
    (h : n ≤ w.inbound.length) :
    ∃ segs, io.CopyN dst w n = (dst ++ w.inbound.take n, n, none, { w with rsegs := segs })
      ∧ segs.flatten = w.inbound.drop n := by
  obtain ⟨segs, e1, e2⟩ := Buffer.ReadFromLoop_enough (w.readBudget + 1) w n dst
    (Nat.lt_succ_self _) h
  refine ⟨segs, ?_, e2⟩
  have hl : (List.take n w.inbound).length = n := by rw [List.length_take]; omega
  simp [io.CopyN, Buffer.ReadFrom, e1, hl]

/-- `io.CopyN` on a stream that ends before `n` bytes: the bytes that did arrive
are in the destination, and the error is the end of the stream, `io.EOF`
included. -/
theorem io.CopyN_short (dst : List Byte) (w : Wrapped) (n : Nat)
    (h : w.inbound.length < n) :
    io.CopyN dst w n
      = (dst ++ w.inbound, w.inbound.length, some w.endError, { w with rsegs := [] }) := by
  have e1 := Buffer.ReadFromLoop_short (w.readBudget + 1) w n dst (Nat.lt_succ_self _) h
  have hne : w.inbound.length ≠ n := by omega
  simp only [io.CopyN, Buffer.ReadFrom, e1, List.length_append, Nat.add_sub_cancel_left, hne,
    if_false, h, true_and]
  by_cases he : w.endError = Error.EOF
  · simp [he]
  · simp [he]


/-! ## Lemmas on `Read`, one for each path through the method -/

/-- A `Read` that finds bytes in the read buffer serves them and touches nothing
else. -/
theorem FramedReadWriteCloser.Read_buffered (f : FramedReadWriteCloser) (cap : Nat)
    (h : f.rbuf ≠ []) :
    f.Read cap = ((f.rbuf.take cap, none), { f with rbuf := f.rbuf.drop cap }) := by
  have hl : f.rbuf.length ≠ 0 := by
    intro h0; exact h (List.length_eq_zero.mp h0)
  simp [FramedReadWriteCloser.Read, Buffer.Read, hl]

/-- A `Read` on an empty read buffer over a stream that ends before four bytes. -/
theorem FramedReadWriteCloser.Read_noHeader (f : FramedReadWriteCloser) (cap : Nat)
    (hr : f.rbuf = []) (h : f.wrapped.inbound.length < 4) :
    f.Read cap
      = (([], some (if 0 < f.wrapped.inbound.length ∧ f.wrapped.endError = Error.EOF
                    then Error.ErrUnexpectedEOF else f.wrapped.endError)),
          { f with wrapped := { f.wrapped with rsegs := [] }, rbuf := [] }) := by
  simp [FramedReadWriteCloser.Read, hr, binary.Read_short f.wrapped h]

/-- A `Read` on an empty read buffer whose length bytes declare more than the
maximum. -/
theorem FramedReadWriteCloser.Read_tooBig (f : FramedReadWriteCloser) (cap : Nat)
    (b0 b1 b2 b3 : Byte) (rest : List Byte) (hr : f.rbuf = [])
    (h : f.wrapped.inbound = [b0, b1, b2, b3] ++ rest)
    (hs : ((b0.val * 2 ^ 24 + b1.val * 2 ^ 16 + b2.val * 2 ^ 8 + b3.val : Nat) : Int)
            > f.maxFrameSize) :
    ∃ segs, f.Read cap
        = (([], some (Error.ErrFrameTooBig
              ((b0.val * 2 ^ 24 + b1.val * 2 ^ 16 + b2.val * 2 ^ 8 + b3.val : Nat) : Int)
              f.maxFrameSize)),
            { f with wrapped := { f.wrapped with rsegs := segs }, rbuf := [] })
      ∧ segs.flatten = rest := by
  obtain ⟨segs, e1, e2⟩ := binary.Read_ok f.wrapped b0 b1 b2 b3 rest h
  refine ⟨segs, ?_, e2⟩
  simp only [FramedReadWriteCloser.Read, hr, List.length_nil, if_true, e1]
  rw [if_pos hs]

/-- A `Read` on an empty read buffer over a stream that holds a whole frame within
the maximum: the payload goes through the read buffer and `bytes.Buffer.Read`
serves the caller from it. -/
theorem FramedReadWriteCloser.Read_frame (f : FramedReadWriteCloser) (cap : Nat)
    (b0 b1 b2 b3 : Byte) (payload rest : List Byte) (hr : f.rbuf = [])
    (h : f.wrapped.inbound = [b0, b1, b2, b3] ++ payload ++ rest)
    (hv : b0.val * 2 ^ 24 + b1.val * 2 ^ 16 + b2.val * 2 ^ 8 + b3.val = payload.length)
    (hs : (payload.length : Int) ≤ f.maxFrameSize) :
    ∃ segs, f.Read cap
        = ((Buffer.Read payload cap).1,
            { f with wrapped := { f.wrapped with rsegs := segs },
                     rbuf := (Buffer.Read payload cap).2 })
      ∧ segs.flatten = rest := by
  obtain ⟨segs, e1, e2⟩ := binary.Read_ok f.wrapped b0 b1 b2 b3 (payload ++ rest)
    (by rw [h]; simp)
  have hin : ({ f.wrapped with rsegs := segs } : Wrapped).inbound = payload ++ rest := e2
  obtain ⟨segs2, e3, e4⟩ := io.CopyN_enough [] { f.wrapped with rsegs := segs } payload.length
    (by rw [hin]; simp)
  refine ⟨segs2, ?_, ?_⟩
  · simp only [FramedReadWriteCloser.Read, hr, List.length_nil, if_true, e1, hv]
    rw [if_neg (by omega), e3, hin]
    simp
  · rw [e4, hin]; simp

/-- A `Read` on an empty read buffer over a stream that ends inside the payload:
the error is the end of the stream as `io.CopyN` returns it, and the bytes that
did arrive stay in the read buffer. -/
theorem FramedReadWriteCloser.Read_truncated (f : FramedReadWriteCloser) (cap : Nat)
    (b0 b1 b2 b3 : Byte) (part : List Byte) (hr : f.rbuf = [])
    (h : f.wrapped.inbound = [b0, b1, b2, b3] ++ part)
    (hv : part.length < b0.val * 2 ^ 24 + b1.val * 2 ^ 16 + b2.val * 2 ^ 8 + b3.val)
    (hs : ((b0.val * 2 ^ 24 + b1.val * 2 ^ 16 + b2.val * 2 ^ 8 + b3.val : Nat) : Int)
            ≤ f.maxFrameSize) :
    f.Read cap
      = (([], some f.wrapped.endError),
          { f with wrapped := { f.wrapped with rsegs := [] }, rbuf := part }) := by
  obtain ⟨segs, e1, e2⟩ := binary.Read_ok f.wrapped b0 b1 b2 b3 part h
  have hin : ({ f.wrapped with rsegs := segs } : Wrapped).inbound = part := e2
  have e3 := io.CopyN_short [] { f.wrapped with rsegs := segs }
    (b0.val * 2 ^ 24 + b1.val * 2 ^ 16 + b2.val * 2 ^ 8 + b3.val) (by rw [hin]; exact hv)
  simp only [FramedReadWriteCloser.Read, hr, List.length_nil, if_true, e1]
  rw [if_neg (by omega), e3, hin]
  simp [Wrapped.endError]

/-! ## Lemmas on `Write` and `Flush` -/

theorem FramedReadWriteCloser.Write_eq (f : FramedReadWriteCloser) (p : List Byte) :
    f.Write p
      = ((p.length,
            if ((f.wbuf ++ p).length : Int) > f.maxFrameSize
            then some (Error.ErrFrameTooBig ((f.wbuf ++ p).length : Int) f.maxFrameSize)
            else none),
          { f with wbuf := f.wbuf ++ p }) := by
  simp only [FramedReadWriteCloser.Write, Buffer.Write]
  split <;> rfl

/-- A `Write` on a stream with no fault ahead takes every byte. -/
theorem Wrapped.Write_nonFailing (w : Wrapped) (p : List Byte) (h : w.NonFailing) :
    w.Write p = (p.length, none, { w with out := w.out ++ p, wscript := w.wscript.tail })
      ∧ ({ w with out := w.out ++ p, wscript := w.wscript.tail } : Wrapped).NonFailing := by
  obtain ⟨segs, rend, out, ws, ce, cl⟩ := w
  cases ws with
  | nil => exact ⟨rfl, by simp [Wrapped.NonFailing]⟩
  | cons o t =>
    have ho : o = none := h o (by simp)
    subst ho
    refine ⟨rfl, ?_⟩
    intro x hx
    exact h x (List.mem_cons_of_mem _ hx)

/-- `Flush` with a non-empty frame on a stream with no fault ahead: the four
length bytes, then the buffer, and the buffer is cleared. -/
theorem FramedReadWriteCloser.Flush_nonFailing (f : FramedReadWriteCloser)
    (h : f.wrapped.NonFailing) (hl : 0 < f.wbuf.length % 2 ^ 32) :
    f.Flush
      = (none,
          { f with
            wrapped := { f.wrapped with
              out := f.wrapped.out ++ BigEndian.PutUint32 (f.wbuf.length % 2 ^ 32) ++ f.wbuf,
              wscript := f.wrapped.wscript.tail.tail },
            wbuf := [] }) := by
  obtain ⟨e1, h1⟩ := Wrapped.Write_nonFailing f.wrapped
    (BigEndian.PutUint32 (f.wbuf.length % 2 ^ 32)) h
  obtain ⟨e2, _⟩ := Wrapped.Write_nonFailing _ f.wbuf h1
  have hpos : f.wbuf.length > 0 := by
    by_contra hc
    have : f.wbuf.length = 0 := by omega
    rw [this] at hl
    simp at hl
  simp only [FramedReadWriteCloser.Flush, gt_iff_lt, hl, if_true, binary.Write, e1, io.Copy,
    Buffer.WriteTo, hpos, e2]
  simp

/-- `Flush` when the computed frame size is zero does nothing. -/
theorem FramedReadWriteCloser.Flush_zero (f : FramedReadWriteCloser)
    (hl : f.wbuf.length % 2 ^ 32 = 0) : f.Flush = (none, f) := by
  simp only [FramedReadWriteCloser.Flush, hl, gt_iff_lt, Nat.lt_irrefl, if_false]


/-! ## Lemmas on sequences of calls -/

theorem writeAll_eq (ps : List (List Byte)) :
    ∀ f : FramedReadWriteCloser, writeAll f ps = { f with wbuf := f.wbuf ++ ps.flatten } := by
  induction ps with
  | nil => intro f; cases f; simp [writeAll]
  | cons p ps ih =>
    intro f
    simp only [writeAll, FramedReadWriteCloser.Write_eq, ih, List.flatten_cons,
      List.append_assoc]

/-- Once the stream has nothing left, reads with positive capacities hand out the
read buffer in order and then return the error that ends the stream. -/
theorem readAll_drain (caps : List Nat) :
    ∀ g : FramedReadWriteCloser,
      g.wrapped.inbound = [] → (∀ c ∈ caps, 0 < c) → g.rbuf.length < caps.length →
      (readAll g caps).1 = g.rbuf ∧ (readAll g caps).2.1 = some g.wrapped.endError := by
  induction caps with
  | nil => intro g _ _ h; simp at h
  | cons c cs ih =>
    intro g hin hpos hlen
    by_cases hb : g.rbuf = []
    · have e := FramedReadWriteCloser.Read_noHeader g c hb (by rw [hin]; decide)
      simp only [readAll, e, hin, List.length_nil, Nat.lt_irrefl, false_and, if_false, hb]
      exact ⟨trivial, trivial⟩
    · have e := FramedReadWriteCloser.Read_buffered g c hb
      have hc : 0 < c := hpos c (by simp)
      have hne : 0 < g.rbuf.length := List.length_pos.mpr hb
      obtain ⟨i1, i2⟩ := ih { g with rbuf := g.rbuf.drop c } hin
        (fun x hx => hpos x (List.mem_cons_of_mem _ hx))
        (by simp only [List.length_drop, List.length_cons] at hlen ⊢; omega)
      simp only [readAll, e]
      exact ⟨by rw [i1]; exact List.take_append_drop c g.rbuf, i2⟩


/-! ## The framing properties -/

/-- C1 (round trip).  For every maximum `m` with `1 ≤ m < 2^32` and every byte
sequence `b` with `len(b) ≤ m`: on a fresh transport over a stream with no write
fault ahead, `Write(b)` returns `len(b), nil` and `Flush` returns `nil`; and a
fresh transport with the same `m` over a stream that holds exactly the bytes
emitted, in any segmentation, and then ends, read with any destinations of
positive capacity up to the first error, delivers exactly `b`, and that first
error is `io.EOF`. -/
theorem C1_round_trip (m : Int) (b : List Byte) (w r : Wrapped) (caps : List Nat)
    (hm1 : 1 ≤ m) (hm2 : m < 2 ^ 32) (hb : (b.length : Int) ≤ m)
    (hw : w.NonFailing)
    (hr : w.out ++ r.inbound
            = (((NewFramedReadWriteCloser w m).Write b).2.Flush).2.wrapped.out)
    (hend : r.rend = none)
    (hpos : ∀ c ∈ caps, 0 < c) (hlen : b.length < caps.length) :
    ((NewFramedReadWriteCloser w m).Write b).1 = (b.length, none)
    ∧ (((NewFramedReadWriteCloser w m).Write b).2.Flush).1 = none
    ∧ (readAll (NewFramedReadWriteCloser r m) caps).1 = b
    ∧ (readAll (NewFramedReadWriteCloser r m) caps).2.1 = some Error.EOF := by
  have hm0 : m ≠ 0 := by omega
  have hnew : ∀ x : Wrapped, NewFramedReadWriteCloser x m = ⟨x, m, [], []⟩ := by
    intro x; simp [NewFramedReadWriteCloser, hm0]
  have hwr : (⟨w, m, [], []⟩ : FramedReadWriteCloser).Write b
      = ((b.length, none), ⟨w, m, [], b⟩) := by
    rw [FramedReadWriteCloser.Write_eq]
    simp only [List.nil_append]
    rw [if_neg (by omega)]
  have hlt : b.length < 2 ^ 32 := by omega
  have hendE : ∀ segs, ({ r with rsegs := segs } : Wrapped).endError = Error.EOF := by
    intro segs; simp [Wrapped.endError, hend]
  rw [hnew w, hwr] at hr
  rw [hnew w, hnew r, hwr]
  by_cases hbe : b = []
  · subst hbe
    have hfl := FramedReadWriteCloser.Flush_zero ⟨w, m, [], []⟩ (by simp)
    rw [hfl] at hr
    have hin : r.inbound = [] := by simpa using hr
    obtain ⟨d1, d2⟩ := readAll_drain caps ⟨r, m, [], []⟩ hin hpos hlen
    refine ⟨rfl, by rw [hfl], d1, ?_⟩
    rw [d2]
    simpa [Wrapped.rsegs_eta] using hendE r.rsegs
  · have hbl : 0 < b.length := List.length_pos.mpr hbe
    have hmod : b.length % 2 ^ 32 = b.length := Nat.mod_eq_of_lt hlt
    have hfl := FramedReadWriteCloser.Flush_nonFailing ⟨w, m, [], b⟩ hw
      (by simp only [hmod]; exact hbl)
    simp only [hmod] at hfl
    rw [hfl] at hr
    have hin : r.inbound = BigEndian.PutUint32 b.length ++ b := by
      simpa [List.append_assoc] using hr
    refine ⟨rfl, by rw [hfl], ?_⟩
    cases caps with
    | nil => simp at hlen
    | cons c cs =>
      have hc : 0 < c := hpos c (by simp)
      have hv := BigEndian.Uint32_PutUint32 b.length hlt
      unfold BigEndian.PutUint32 at hv hin
      rw [BigEndian.Uint32_eq] at hv
      obtain ⟨segs, e1, e2⟩ := FramedReadWriteCloser.Read_frame ⟨r, m, [], []⟩ c
        _ _ _ _ b [] rfl (by simpa using hin) hv hb
      have hbr : Buffer.Read b c = ((b.take c, none), b.drop c) := by
        simp [Buffer.Read, hbe]
      rw [hbr] at e1
      obtain ⟨d1, d2⟩ := readAll_drain cs
        ⟨{ r with rsegs := segs }, m, b.drop c, []⟩ e2
        (fun x hx => hpos x (List.mem_cons_of_mem _ hx))
        (by simp only [List.length_drop, List.length_cons] at hlen ⊢; omega)
      simp only [readAll, e1]
      refine ⟨?_, ?_⟩
      · rw [d1]; exact List.take_append_drop c b
      · rw [d2, hendE]

/-- C1 at `m = 1024`, `b = 41 42 43`, the emitted bytes arriving in three
segments and read with capacities 2, 1, 5, 1. -/
theorem C1_round_trip_witness :
    ((NewFramedReadWriteCloser ⟨[], none, [], [], none, 0⟩ 1024).Write [0x41, 0x42, 0x43]).1
        = (3, none)
    ∧ (((NewFramedReadWriteCloser ⟨[], none, [], [], none, 0⟩ 1024).Write
          [0x41, 0x42, 0x43]).2.Flush).1 = none
    ∧ (readAll (NewFramedReadWriteCloser
          ⟨[[0, 0], [0, 3, 0x41], [0x42, 0x43]], none, [], [], none, 0⟩ 1024) [2, 1, 5, 1]).1
        = [0x41, 0x42, 0x43]
    ∧ (readAll (NewFramedReadWriteCloser
          ⟨[[0, 0], [0, 3, 0x41], [0x42, 0x43]], none, [], [], none, 0⟩ 1024) [2, 1, 5, 1]).2.1
        = some Error.EOF :=
  C1_round_trip 1024 [0x41, 0x42, 0x43] ⟨[], none, [], [], none, 0⟩
    ⟨[[0, 0], [0, 3, 0x41], [0x42, 0x43]], none, [], [], none, 0⟩ [2, 1, 5, 1]
    (by decide) (by decide) (by decide) (by decide) (by decide) rfl (by decide) (by decide)


/-- C2 (wire format of `Flush`).  For every sequence of `Write` calls `ps` on a
transport whose write buffer is empty, with `1 ≤ len(c) < 2^32` for the
concatenation `c` of `ps`, a following `Flush` over a stream with no write fault
ahead returns `nil` and appends to the stream exactly four bytes whose
big-endian value is `len(c)`, followed by `c`. -/
theorem C2_flush_wire_format (f : FramedReadWriteCloser) (ps : List (List Byte))
    (hw : f.wbuf = []) (hnf : f.wrapped.NonFailing)
    (h1 : 1 ≤ ps.flatten.length) (h2 : ps.flatten.length < 2 ^ 32) :
    ∃ b0 b1 b2 b3 : Byte,
      b0.val * 2 ^ 24 + b1.val * 2 ^ 16 + b2.val * 2 ^ 8 + b3.val = ps.flatten.length
      ∧ (writeAll f ps).Flush.1 = none
      ∧ (writeAll f ps).Flush.2.wrapped.out
          = f.wrapped.out ++ [b0, b1, b2, b3] ++ ps.flatten := by
  have hmod : ps.flatten.length % 2 ^ 32 = ps.flatten.length := Nat.mod_eq_of_lt h2
  have hv := BigEndian.Uint32_PutUint32 ps.flatten.length h2
  unfold BigEndian.PutUint32 at hv
  rw [BigEndian.Uint32_eq] at hv
  refine ⟨_, _, _, _, hv, ?_⟩
  rw [writeAll_eq, hw, List.nil_append]
  have hfl := FramedReadWriteCloser.Flush_nonFailing { f with wbuf := ps.flatten } hnf
    (by simp only [hmod]; omega)
  simp only [hmod] at hfl
  rw [hfl]
  exact ⟨rfl, rfl⟩

/-- C2 at the scenario of the specification: `Write(41 42 43)`, `Write(44)`,
`Flush` emits `00 00 00 04 41 42 43 44`. -/
theorem C2_flush_wire_format_witness :
    (∃ b0 b1 b2 b3 : Byte,
      b0.val * 2 ^ 24 + b1.val * 2 ^ 16 + b2.val * 2 ^ 8 + b3.val
          = ([[0x41, 0x42, 0x43], [0x44]] : List (List Byte)).flatten.length
      ∧ (writeAll (NewFramedReadWriteCloser ⟨[], none, [], [], none, 0⟩ 1024)
            [[0x41, 0x42, 0x43], [0x44]]).Flush.1 = none
      ∧ (writeAll (NewFramedReadWriteCloser ⟨[], none, [], [], none, 0⟩ 1024)
            [[0x41, 0x42, 0x43], [0x44]]).Flush.2.wrapped.out
          = (NewFramedReadWriteCloser ⟨[], none, [], [], none, 0⟩ 1024).wrapped.out
              ++ [b0, b1, b2, b3] ++ ([[0x41, 0x42, 0x43], [0x44]] : List (List Byte)).flatten)
    ∧ (writeAll (NewFramedReadWriteCloser ⟨[], none, [], [], none, 0⟩ 1024)
          [[0x41, 0x42, 0x43], [0x44]]).Flush.2.wrapped.out
        = [0, 0, 0, 4, 0x41, 0x42, 0x43, 0x44] :=
  ⟨C2_flush_wire_format (NewFramedReadWriteCloser ⟨[], none, [], [], none, 0⟩ 1024)
      [[0x41, 0x42, 0x43], [0x44]] rfl (by decide) (by decide) (by decide),
    by decide⟩

/-- C3 (read size bound).  For every transport with an empty read buffer and
every maximum, over a stream whose next four bytes `b0 b1 b2 b3` declare the
size `s` (their big-endian value): `Read` returns an `ErrFrameTooBig` exactly
when `s` exceeds the maximum, and it then delivers no byte and the error
carries `Size = s` and `MaxSize =` the maximum.  So `s` equal to the maximum is
not rejected and the maximum plus one is. -/
theorem C3_read_size_bound (f : FramedReadWriteCloser) (cap : Nat)
    (b0 b1 b2 b3 : Byte) (rest : List Byte) (hr : f.rbuf = [])
    (h : f.wrapped.inbound = [b0, b1, b2, b3] ++ rest) :
    ((∃ size maxSize, (f.Read cap).1.2 = some (Error.ErrFrameTooBig size maxSize))
      ↔ ((b0.val * 2 ^ 24 + b1.val * 2 ^ 16 + b2.val * 2 ^ 8 + b3.val : Nat) : Int)
          > f.maxFrameSize)
    ∧ (((b0.val * 2 ^ 24 + b1.val * 2 ^ 16 + b2.val * 2 ^ 8 + b3.val : Nat) : Int)
          > f.maxFrameSize →
        (f.Read cap).1
          = ([], some (Error.ErrFrameTooBig
              ((b0.val * 2 ^ 24 + b1.val * 2 ^ 16 + b2.val * 2 ^ 8 + b3.val : Nat) : Int)
              f.maxFrameSize))) := by
  have big : ((b0.val * 2 ^ 24 + b1.val * 2 ^ 16 + b2.val * 2 ^ 8 + b3.val : Nat) : Int)
        > f.maxFrameSize →
      (f.Read cap).1
        = ([], some (Error.ErrFrameTooBig
            ((b0.val * 2 ^ 24 + b1.val * 2 ^ 16 + b2.val * 2 ^ 8 + b3.val : Nat) : Int)
            f.maxFrameSize)) := by
    intro hs
    obtain ⟨segs, e, _⟩ := FramedReadWriteCloser.Read_tooBig f cap b0 b1 b2 b3 rest hr h hs
    rw [e]
  refine ⟨⟨?_, fun hs => ⟨_, _, by rw [big hs]⟩⟩, big⟩
  rintro ⟨size, maxSize, he⟩
  by_contra hs
  have hle : ((b0.val * 2 ^ 24 + b1.val * 2 ^ 16 + b2.val * 2 ^ 8 + b3.val : Nat) : Int)
      ≤ f.maxFrameSize := by omega
  by_cases hlen : b0.val * 2 ^ 24 + b1.val * 2 ^ 16 + b2.val * 2 ^ 8 + b3.val ≤ rest.length
  · have hl : (rest.take (b0.val * 2 ^ 24 + b1.val * 2 ^ 16 + b2.val * 2 ^ 8 + b3.val)).length
        = b0.val * 2 ^ 24 + b1.val * 2 ^ 16 + b2.val * 2 ^ 8 + b3.val := by
      rw [List.length_take]; omega
    obtain ⟨segs, e, _⟩ := FramedReadWriteCloser.Read_frame f cap b0 b1 b2 b3
      (rest.take (b0.val * 2 ^ 24 + b1.val * 2 ^ 16 + b2.val * 2 ^ 8 + b3.val))
      (rest.drop (b0.val * 2 ^ 24 + b1.val * 2 ^ 16 + b2.val * 2 ^ 8 + b3.val)) hr
      (by rw [h, List.append_assoc, List.take_append_drop]) hl.symm (by rw [hl]; exact hle)
    rw [e] at he
    simp only [Buffer.Read] at he
    split at he
    · split at he <;> simp at he
    · simp at he
  · have e := FramedReadWriteCloser.Read_truncated f cap b0 b1 b2 b3 rest hr h
      (by omega) hle
    rw [e] at he
    simp only [Wrapped.endError] at he
    split at he <;> simp at he

/-- C3 at the boundary: with maximum 3 a declared size of 4 is rejected with
`ErrFrameTooBig{4, 3}` and a declared size of 3 is not rejected. -/
theorem C3_read_size_bound_witness :
    ((NewFramedReadWriteCloser ⟨[[0, 0, 0, 4], [1, 2, 3, 4]], none, [], [], none, 0⟩ 3).Read 8).1
        = ([], some (Error.ErrFrameTooBig 4 3))
    ∧ ¬ (∃ size maxSize,
          ((NewFramedReadWriteCloser ⟨[[0, 0, 0, 3], [1, 2, 3]], none, [], [], none, 0⟩ 3).Read
            8).1.2 = some (Error.ErrFrameTooBig size maxSize)) :=
  ⟨(C3_read_size_bound
      (NewFramedReadWriteCloser ⟨[[0, 0, 0, 4], [1, 2, 3, 4]], none, [], [], none, 0⟩ 3) 8
      0 0 0 4 [1, 2, 3, 4] rfl (by decide)).2 (by decide),
    fun hex => absurd
      ((C3_read_size_bound
        (NewFramedReadWriteCloser ⟨[[0, 0, 0, 3], [1, 2, 3]], none, [], [], none, 0⟩ 3) 8
        0 0 0 3 [1, 2, 3] rfl (by decide)).1.1 hex) (by decide)⟩

/-- C4 (write size bound).  For every write buffer `w`, byte slice `p` and
maximum `m`: `Write(p)` leaves the write buffer equal to `w ++ p` and returns
the count `len(p)`; it returns no error when `len(w) + len(p) ≤ m`, and it
returns `ErrFrameTooBig` with `Size = len(w) + len(p)` and `MaxSize = m` exactly
when `len(w) + len(p) > m`. -/
theorem C4_write_size_bound (f : FramedReadWriteCloser) (p : List Byte) :
    (f.Write p).2.wbuf = f.wbuf ++ p
    ∧ (f.Write p).1.1 = p.length
    ∧ (((f.wbuf.length + p.length : Nat) : Int) ≤ f.maxFrameSize → (f.Write p).1.2 = none)
    ∧ ((f.Write p).1.2
          = some (Error.ErrFrameTooBig ((f.wbuf.length + p.length : Nat) : Int) f.maxFrameSize)
        ↔ ((f.wbuf.length + p.length : Nat) : Int) > f.maxFrameSize)
    ∧ ((∃ size maxSize, (f.Write p).1.2 = some (Error.ErrFrameTooBig size maxSize))
        ↔ ((f.wbuf.length + p.length : Nat) : Int) > f.maxFrameSize) := by
  rw [FramedReadWriteCloser.Write_eq]
  simp only [List.length_append]
  refine ⟨trivial, trivial, ?_, ?_, ?_⟩
  · intro h; rw [if_neg (by omega)]
  · constructor
    · intro h
      by_contra hc
      rw [if_neg hc] at h
      simp at h
    · intro h; rw [if_pos h]
  · constructor
    · rintro ⟨size, maxSize, h⟩
      by_contra hc
      rw [if_neg hc] at h
      simp at h
    · intro h; exact ⟨_, _, by rw [if_pos h]⟩

/-- C4 at the boundary: with maximum 3, a buffer of two bytes takes a third
without error, and the fourth byte is appended and reported with the error. -/
theorem C4_write_size_bound_witness :
    ((⟨⟨[], none, [], [], none, 0⟩, 3, [], [1, 2]⟩ : FramedReadWriteCloser).Write [3]).1
        = (1, none)
    ∧ ((⟨⟨[], none, [], [], none, 0⟩, 3, [], [1, 2, 3]⟩ : FramedReadWriteCloser).Write [4])
        = ((1, some (Error.ErrFrameTooBig 4 3)), ⟨⟨[], none, [], [], none, 0⟩, 3, [], [1, 2, 3, 4]⟩) := by
  have h1 := C4_write_size_bound ⟨⟨[], none, [], [], none, 0⟩, 3, [], [1, 2]⟩ [3]
  exact ⟨Prod.ext h1.2.1 (h1.2.2.1 (by decide)), by decide⟩


/-- C5 (no partial frame is exposed), the code on a truncated frame.  Maximum
1024, stream `00 00 00 0A 01 02 03` and then the end.  The first `Read` returns
no byte and an error, but the three payload bytes stay in the read buffer, and
the next `Read` hands them to the caller without an error. -/
theorem C5_truncated_frame_is_exposed :
    ((NewFramedReadWriteCloser ⟨[[0, 0, 0, 10, 1, 2, 3]], none, [], [], none, 0⟩ 1024).Read 16).1
        = ([], some Error.EOF)
    ∧ ((NewFramedReadWriteCloser
          ⟨[[0, 0, 0, 10, 1, 2, 3]], none, [], [], none, 0⟩ 1024).Read 16).2.rbuf = [1, 2, 3]
    ∧ (((NewFramedReadWriteCloser
          ⟨[[0, 0, 0, 10, 1, 2, 3]], none, [], [], none, 0⟩ 1024).Read 16).2.Read 16).1
        = ([1, 2, 3], none) := by
  decide

/-- C6 (zero-length frame on read), the code on a zero-length frame.  Maximum
1024, stream `00 00 00 00` followed by the frame `00 00 00 01 41`.  The first
`Read` with capacity 1 consumes the four bytes, leaves the read buffer empty and
returns no byte together with `io.EOF`, although the stream has not ended; the
next `Read` parses the following length bytes and delivers `41`. -/
theorem C6_zero_length_frame_reads_as_EOF :
    ((NewFramedReadWriteCloser
        ⟨[[0, 0, 0, 0, 0, 0, 0, 1, 0x41]], none, [], [], none, 0⟩ 1024).Read 1)
      = (([], some Error.EOF),
          ⟨⟨[[0, 0, 0, 1, 0x41]], none, [], [], none, 0⟩, 1024, [], []⟩)
    ∧ (((NewFramedReadWriteCloser
          ⟨[[0, 0, 0, 0, 0, 0, 0, 1, 0x41]], none, [], [], none, 0⟩ 1024).Read 1).2.Read 1).1
        = ([0x41], none) := by
  decide


/-- Reads of capacity `c` that all start on a non-empty read buffer: the state
after `j` of them. -/
theorem readEach_buffered_state (c : Nat) (j : Nat) :
    ∀ g : FramedReadWriteCloser, j * c < g.rbuf.length + c →
      (readEach g (List.replicate j c)).2 = { g with rbuf := g.rbuf.drop (j * c) } := by
  induction j with
  | zero => intro g _; cases g; simp [readEach]
  | succ j ih =>
    intro g h
    have hlt : j * c < g.rbuf.length := by
      rw [Nat.succ_mul] at h; omega
    have hne : g.rbuf ≠ [] := by
      intro h0; rw [h0] at hlt; simp at hlt
    have e := FramedReadWriteCloser.Read_buffered g c hne
    have i := ih { g with rbuf := g.rbuf.drop c }
      (by simp only [List.length_drop]; omega)
    simp only [List.replicate_succ, readEach, e, i, List.drop_drop]
    rw [Nat.succ_mul, Nat.add_comm]

/-- Reads of capacity `c` that all start on a non-empty read buffer: what
`readAll` collects. -/
theorem readAll_buffered (c : Nat) (k : Nat) :
    ∀ g : FramedReadWriteCloser, k * c < g.rbuf.length + c →
      readAll g (List.replicate k c)
        = (g.rbuf.take (k * c), none, { g with rbuf := g.rbuf.drop (k * c) }) := by
  induction k with
  | zero => intro g _; cases g; simp [readAll]
  | succ k ih =>
    intro g h
    have hlt : k * c < g.rbuf.length := by
      rw [Nat.succ_mul] at h; omega
    have hne : g.rbuf ≠ [] := by
      intro h0; rw [h0] at hlt; simp at hlt
    have e := FramedReadWriteCloser.Read_buffered g c hne
    have i := ih { g with rbuf := g.rbuf.drop c }
      (by simp only [List.length_drop]; omega)
    simp only [List.replicate_succ, readAll, e, i, List.drop_drop]
    rw [Nat.succ_mul, Nat.add_comm (k * c) c, List.take_add]

/-- C7 (partial delivery).  For every frame with a payload of `s ≥ 1` bytes within
the maximum and every destination capacity `c ≥ 1`, on a transport with an
empty read buffer whose stream holds the frame: as long as `j * c < s`, the
read number `j` (from 0) returns no error and the `min(c, s - j*c)` bytes at the
front of what is left of the payload, the read buffer afterwards holds what
follows them, and a read after the first leaves the wrapped stream as it was;
the `ceil(s / c)` reads together deliver the payload and empty the read
buffer. -/
theorem C7_partial_delivery (f : FramedReadWriteCloser) (c : Nat)
    (b0 b1 b2 b3 : Byte) (payload rest : List Byte) (hr : f.rbuf = [])
    (h : f.wrapped.inbound = [b0, b1, b2, b3] ++ payload ++ rest)
    (hv : b0.val * 2 ^ 24 + b1.val * 2 ^ 16 + b2.val * 2 ^ 8 + b3.val = payload.length)
    (h1 : 1 ≤ payload.length) (hs : (payload.length : Int) ≤ f.maxFrameSize)
    (hc : 1 ≤ c) :
    (∀ j, j * c < payload.length →
      ((readEach f (List.replicate j c)).2.Read c).1 = ((payload.drop (j * c)).take c, none)
      ∧ ((payload.drop (j * c)).take c).length = min c (payload.length - j * c)
      ∧ ((readEach f (List.replicate j c)).2.Read c).2.rbuf = payload.drop (j * c + c)
      ∧ (1 ≤ j → ((readEach f (List.replicate j c)).2.Read c).2.wrapped
                  = (readEach f (List.replicate j c)).2.wrapped))
    ∧ (readAll f (List.replicate ((payload.length + c - 1) / c) c)).1 = payload
    ∧ (readAll f (List.replicate ((payload.length + c - 1) / c) c)).2.1 = none
    ∧ (readAll f (List.replicate ((payload.length + c - 1) / c) c)).2.2.rbuf = [] := by
  obtain ⟨segs, e1, _⟩ := FramedReadWriteCloser.Read_frame f c b0 b1 b2 b3 payload rest
    hr h hv hs
  have hne : payload ≠ [] := by
    intro h0; rw [h0] at h1; simp at h1
  have hbr : Buffer.Read payload c = ((payload.take c, none), payload.drop c) := by
    simp [Buffer.Read, hne]
  rw [hbr] at e1
  refine ⟨?_, ?_⟩
  · intro j hj
    cases j with
    | zero =>
      refine ⟨by simp [readEach, e1], by simp [List.length_take], by simp [readEach, e1], ?_⟩
      intro h0; omega
    | succ i =>
      have hi : (i + 1) * c = c + i * c := by rw [Nat.succ_mul, Nat.add_comm]
      rw [hi] at hj ⊢
      have st := readEach_buffered_state c i
        { f with wrapped := { f.wrapped with rsegs := segs }, rbuf := payload.drop c }
        (by simp only [List.length_drop]; omega)
      simp only [List.drop_drop] at st
      have hne2 : payload.drop (c + i * c) ≠ [] := by
        intro h0
        have := congrArg List.length h0
        simp only [List.length_drop, List.length_nil] at this
        omega
      have e2 := FramedReadWriteCloser.Read_buffered
        { f with wrapped := { f.wrapped with rsegs := segs },
                 rbuf := payload.drop (c + i * c) } c hne2
      simp only [List.replicate_succ, readEach, e1, st, e2, List.drop_drop]
      exact ⟨trivial, by simp [List.length_take, List.length_drop], trivial, fun _ => trivial⟩
  · have hk1 : (payload.length + c - 1) / c * c ≤ payload.length + c - 1 :=
      Nat.div_mul_le_self _ _
    have hk2 : payload.length + c - 1 < c * ((payload.length + c - 1) / c + 1) :=
      Nat.lt_mul_div_succ _ (by omega)
    have hk0 : 0 < (payload.length + c - 1) / c :=
      Nat.div_pos (by omega) (by omega)
    generalize (payload.length + c - 1) / c = k at hk0 hk1 hk2
    cases k with
    | zero => simp at hk0
    | succ i =>
      rw [Nat.succ_mul] at hk1
      rw [Nat.mul_succ, Nat.mul_succ, Nat.mul_comm c i] at hk2
      have ra := readAll_buffered c i
        { f with wrapped := { f.wrapped with rsegs := segs }, rbuf := payload.drop c }
        (by simp only [List.length_drop]; omega)
      simp only [List.replicate_succ, readAll, e1, ra, List.drop_drop]
      refine ⟨?_, trivial, ?_⟩
      · rw [← List.take_add, List.take_of_length_le (by omega)]
      · exact List.drop_of_length_le (by omega)

/-- C7 at the scenario of the specification: the frame `00 00 00 04 41 42 43 44`
read with capacity 2 comes out as `41 42` and then `43 44`. -/
theorem C7_partial_delivery_witness :
    ((readEach (NewFramedReadWriteCloser
          ⟨[[0, 0, 0, 4, 0x41, 0x42, 0x43, 0x44, 9]], none, [], [], none, 0⟩ 1024)
        (List.replicate 1 2)).2.Read 2).1 = (([0x41, 0x42, 0x43, 0x44].drop (1 * 2)).take 2, none)
    ∧ (readAll (NewFramedReadWriteCloser
          ⟨[[0, 0, 0, 4, 0x41, 0x42, 0x43, 0x44, 9]], none, [], [], none, 0⟩ 1024)
        (List.replicate ((([0x41, 0x42, 0x43, 0x44] : List Byte).length + 2 - 1) / 2) 2)).1
        = [0x41, 0x42, 0x43, 0x44] :=
  have w := C7_partial_delivery
    (NewFramedReadWriteCloser
      ⟨[[0, 0, 0, 4, 0x41, 0x42, 0x43, 0x44, 9]], none, [], [], none, 0⟩ 1024) 2
    0 0 0 4 [0x41, 0x42, 0x43, 0x44] [9] rfl (by decide) (by decide) (by decide) (by decide)
    (by decide)
  ⟨((w.1 1 (by decide)).1), w.2.1⟩


/-- C8 (end of stream only at a frame boundary), the code on a truncated
payload.  Maximum 1024.  Over the stream `00 00 00 0A 01 02 03` that then ends,
`Read` returns `io.EOF`, the same value it returns over a stream that ends
before any length byte; over a stream that ends after the three length bytes
`00 00 00` it returns `io.ErrUnexpectedEOF`. -/
theorem C8_truncated_payload_reads_as_EOF :
    ((NewFramedReadWriteCloser ⟨[[0, 0, 0, 10, 1, 2, 3]], none, [], [], none, 0⟩ 1024).Read 16).1
        = ([], some Error.EOF)
    ∧ ((NewFramedReadWriteCloser ⟨[], none, [], [], none, 0⟩ 1024).Read 16).1
        = ([], some Error.EOF)
    ∧ ((NewFramedReadWriteCloser ⟨[[0, 0, 0]], none, [], [], none, 0⟩ 1024).Read 16).1
        = ([], some Error.ErrUnexpectedEOF) := by
  decide

/-- C9 (a `Read` fetches at most one frame).  For every transport with an empty
read buffer over a stream that holds four length bytes of value `s`, a payload
of `s` bytes with `1 ≤ s ≤` the maximum, and then `rest`, and for every
destination capacity `c` (`c ≥ 1` is not needed): `Read` returns no error and the first `min(c, s)`
bytes of the payload, the read buffer afterwards holds the other
`s - min(c, s)` bytes of the payload, and the stream afterwards holds exactly
`rest`, which is `4 + s` bytes less than before. -/
theorem C9_read_fetches_one_frame (f : FramedReadWriteCloser) (c : Nat)
    (b0 b1 b2 b3 : Byte) (payload rest : List Byte) (hr : f.rbuf = [])
    (h : f.wrapped.inbound = [b0, b1, b2, b3] ++ payload ++ rest)
    (hv : b0.val * 2 ^ 24 + b1.val * 2 ^ 16 + b2.val * 2 ^ 8 + b3.val = payload.length)
    (h1 : 1 ≤ payload.length) (hs : (payload.length : Int) ≤ f.maxFrameSize) :
    (f.Read c).1 = (payload.take (min c payload.length), none)
    ∧ (f.Read c).1.1.length = min c payload.length
    ∧ (f.Read c).2.rbuf = payload.drop (min c payload.length)
    ∧ (f.Read c).2.rbuf.length = payload.length - min c payload.length
    ∧ (f.Read c).2.wrapped.inbound = rest
    ∧ (f.Read c).2.wrapped.inbound.length + (4 + payload.length) = f.wrapped.inbound.length := by
  obtain ⟨segs, e1, e2⟩ := FramedReadWriteCloser.Read_frame f c b0 b1 b2 b3 payload rest
    hr h hv hs
  have hne : payload ≠ [] := by
    intro h0; rw [h0] at h1; simp at h1
  have hbr : Buffer.Read payload c = ((payload.take c, none), payload.drop c) := by
    simp [Buffer.Read, hne]
  rw [hbr] at e1
  have ht : payload.take (min c payload.length) = payload.take c := by
    rw [List.take_eq_take]; simp
  have hd : payload.drop (min c payload.length) = payload.drop c := by
    by_cases hle : c ≤ payload.length
    · rw [Nat.min_eq_left hle]
    · rw [Nat.min_eq_right (by omega), List.drop_of_length_le (Nat.le_refl _),
        List.drop_of_length_le (by omega)]
  rw [e1, ht, hd, h]
  refine ⟨rfl, ?_, rfl, ?_, e2, ?_⟩
  · simp [List.length_take]
  · simp only [List.length_drop]; omega
  · simp only [Wrapped.inbound, e2, List.length_append, List.length_cons, List.length_nil]
    omega

/-- C9 at a frame of four bytes followed by more data, read with capacity 16. -/
theorem C9_read_fetches_one_frame_witness :
    ((NewFramedReadWriteCloser
        ⟨[[0, 0, 0, 4, 0x41], [0x42, 0x43, 0x44, 0, 0, 0, 1, 7]], none, [], [], none, 0⟩
        1024).Read 16).1
      = (([0x41, 0x42, 0x43, 0x44] : List Byte).take
          (min 16 ([0x41, 0x42, 0x43, 0x44] : List Byte).length), none)
    ∧ ((NewFramedReadWriteCloser
        ⟨[[0, 0, 0, 4, 0x41], [0x42, 0x43, 0x44, 0, 0, 0, 1, 7]], none, [], [], none, 0⟩
        1024).Read 16).2.wrapped.inbound = [0, 0, 0, 1, 7] :=
  have w := C9_read_fetches_one_frame
    (NewFramedReadWriteCloser
      ⟨[[0, 0, 0, 4, 0x41], [0x42, 0x43, 0x44, 0, 0, 0, 1, 7]], none, [], [], none, 0⟩ 1024) 16
    0 0 0 4 [0x41, 0x42, 0x43, 0x44] [0, 0, 0, 1, 7] rfl (by decide) (by decide) (by decide)
    (by decide)
  ⟨w.1, w.2.2.2.2.1⟩

/-- C10 (an oversized frame's payload is not read).  For every transport with an
empty read buffer over a stream whose four length bytes declare more than the
maximum, the `Read` fails with `ErrFrameTooBig`, the stream afterwards holds
everything that followed the four length bytes, the read buffer is empty and
the write buffer is as it was. -/
theorem C10_oversized_payload_not_read (f : FramedReadWriteCloser) (c : Nat)
    (b0 b1 b2 b3 : Byte) (rest : List Byte) (hr : f.rbuf = [])
    (h : f.wrapped.inbound = [b0, b1, b2, b3] ++ rest)
    (hs : ((b0.val * 2 ^ 24 + b1.val * 2 ^ 16 + b2.val * 2 ^ 8 + b3.val : Nat) : Int)
            > f.maxFrameSize) :
    (f.Read c).1
        = ([], some (Error.ErrFrameTooBig
            ((b0.val * 2 ^ 24 + b1.val * 2 ^ 16 + b2.val * 2 ^ 8 + b3.val : Nat) : Int)
            f.maxFrameSize))
    ∧ (f.Read c).2.wrapped.inbound = rest
    ∧ (f.Read c).2.wrapped.inbound.length + 4 = f.wrapped.inbound.length
    ∧ (f.Read c).2.rbuf = []
    ∧ (f.Read c).2.wbuf = f.wbuf := by
  obtain ⟨segs, e1, e2⟩ := FramedReadWriteCloser.Read_tooBig f c b0 b1 b2 b3 rest hr h hs
  rw [e1, h]
  refine ⟨rfl, e2, ?_, rfl, rfl⟩
  simp only [Wrapped.inbound, e2, List.length_append, List.length_cons, List.length_nil]
  omega

/-- C10 at maximum 3 and a declared size of 4: the four payload bytes stay in
the stream. -/
theorem C10_oversized_payload_not_read_witness :
    ((NewFramedReadWriteCloser
        ⟨[[0, 0, 0, 4, 1, 2], [3, 4]], none, [], [], none, 0⟩ 3).Read 8).2.wrapped.inbound
      = [1, 2, 3, 4] :=
  (C10_oversized_payload_not_read
    (NewFramedReadWriteCloser ⟨[[0, 0, 0, 4, 1, 2], [3, 4]], none, [], [], none, 0⟩ 3) 8
    0 0 0 4 [1, 2, 3, 4] rfl (by decide) (by decide)).2.1

/-! ## What the code does on the inputs of C5, C6 and C8 -/

/-- A frame cut short by a clean end of the stream.  For every transport with an
empty read buffer over a stream that holds four length bytes of value `n` within
the maximum, then a non-empty `part` of fewer than `n` bytes, and then ends with
`io.EOF`: `Read` returns no byte and `io.EOF`, the read buffer afterwards is
`part`, and the next `Read` with capacity `c` returns the first `c` bytes of
`part` without an error. -/
theorem truncated_payload_behaviour (f : FramedReadWriteCloser) (c : Nat)
    (b0 b1 b2 b3 : Byte) (part : List Byte) (hr : f.rbuf = [])
    (h : f.wrapped.inbound = [b0, b1, b2, b3] ++ part)
    (hv : part.length < b0.val * 2 ^ 24 + b1.val * 2 ^ 16 + b2.val * 2 ^ 8 + b3.val)
    (hs : ((b0.val * 2 ^ 24 + b1.val * 2 ^ 16 + b2.val * 2 ^ 8 + b3.val : Nat) : Int)
            ≤ f.maxFrameSize)
    (hend : f.wrapped.rend = none) (hk : part ≠ []) :
    (f.Read c).1 = ([], some Error.EOF)
    ∧ (f.Read c).2.rbuf = part
    ∧ ((f.Read c).2.Read c).1 = (part.take c, none) := by
  have e := FramedReadWriteCloser.Read_truncated f c b0 b1 b2 b3 part hr h hv hs
  have e2 := FramedReadWriteCloser.Read_buffered
    { f with wrapped := { f.wrapped with rsegs := [] }, rbuf := part } c hk
  rw [e, e2]
  simp [Wrapped.endError, hend]

/-- The frame `00 00 00 0A 01 02 03` cut short, read with capacity 2. -/
theorem truncated_payload_behaviour_witness :
    ((NewFramedReadWriteCloser ⟨[[0, 0, 0, 10], [1, 2, 3]], none, [], [], none, 0⟩ 1024).Read 2).1
        = ([], some Error.EOF)
    ∧ ((NewFramedReadWriteCloser
          ⟨[[0, 0, 0, 10], [1, 2, 3]], none, [], [], none, 0⟩ 1024).Read 2).2.rbuf = [1, 2, 3]
    ∧ (((NewFramedReadWriteCloser
          ⟨[[0, 0, 0, 10], [1, 2, 3]], none, [], [], none, 0⟩ 1024).Read 2).2.Read 2).1
        = (([1, 2, 3] : List Byte).take 2, none) :=
  truncated_payload_behaviour
    (NewFramedReadWriteCloser ⟨[[0, 0, 0, 10], [1, 2, 3]], none, [], [], none, 0⟩ 1024) 2
    0 0 0 10 [1, 2, 3] rfl (by decide) (by decide) (by decide) rfl (by decide)

/-- A zero-length frame.  For every transport with an empty read buffer and a
maximum of at least 0, over a stream whose next four bytes are `00 00 00 00`,
and for every destination capacity `c ≥ 1`: `Read` returns no byte and `io.EOF`,
the read buffer afterwards is empty, and the stream afterwards holds exactly
what followed the four bytes. -/
theorem zero_length_frame_behaviour (f : FramedReadWriteCloser) (c : Nat)
    (rest : List Byte) (hr : f.rbuf = [])
    (h : f.wrapped.inbound = [0, 0, 0, 0] ++ rest)
    (hm : 0 ≤ f.maxFrameSize) (hc : 1 ≤ c) :
    (f.Read c).1 = ([], some Error.EOF)
    ∧ (f.Read c).2.rbuf = []
    ∧ (f.Read c).2.wrapped.inbound = rest := by
  obtain ⟨segs, e1, e2⟩ := FramedReadWriteCloser.Read_frame f c 0 0 0 0 [] rest hr
    (by simpa using h) (by decide) (by simpa using hm)
  have hc0 : c ≠ 0 := by omega
  rw [e1]
  simp [Buffer.Read, hc0, Wrapped.inbound, e2]

/-- The stream `00 00 00 00` followed by another frame, read with capacity 1. -/
theorem zero_length_frame_behaviour_witness :
    ((NewFramedReadWriteCloser
        ⟨[[0, 0, 0, 0], [0, 0, 0, 1, 0x41]], none, [], [], none, 0⟩ 1024).Read 1).1
        = ([], some Error.EOF)
    ∧ ((NewFramedReadWriteCloser
        ⟨[[0, 0, 0, 0], [0, 0, 0, 1, 0x41]], none, [], [], none, 0⟩ 1024).Read 1).2.rbuf = []
    ∧ ((NewFramedReadWriteCloser
        ⟨[[0, 0, 0, 0], [0, 0, 0, 1, 0x41]], none, [], [], none, 0⟩ 1024).Read
          1).2.wrapped.inbound = [0, 0, 0, 1, 0x41] :=
  zero_length_frame_behaviour
    (NewFramedReadWriteCloser ⟨[[0, 0, 0, 0], [0, 0, 0, 1, 0x41]], none, [], [], none, 0⟩ 1024) 1
    [0, 0, 0, 1, 0x41] rfl (by decide) (by decide) (by decide)

/-- The end of the stream at or inside the length bytes.  For every transport
with an empty read buffer over a stream that ends with `io.EOF` before four
bytes: `Read` returns no byte, with `io.EOF` when the stream held nothing and
with `io.ErrUnexpectedEOF` when it held one to three bytes; the read buffer
stays empty. -/
theorem short_header_behaviour (f : FramedReadWriteCloser) (c : Nat)
    (hr : f.rbuf = []) (h : f.wrapped.inbound.length < 4) (hend : f.wrapped.rend = none) :
    (f.wrapped.inbound = [] → (f.Read c).1 = ([], some Error.EOF))
    ∧ (f.wrapped.inbound ≠ [] → (f.Read c).1 = ([], some Error.ErrUnexpectedEOF))
    ∧ (f.Read c).2.rbuf = [] := by
  have e := FramedReadWriteCloser.Read_noHeader f c hr h
  have he : f.wrapped.endError = Error.EOF := by simp [Wrapped.endError, hend]
  rw [e, he]
  refine ⟨?_, ?_, rfl⟩
  · intro h0; simp [h0]
  · intro h0
    have : 0 < f.wrapped.inbound.length := List.length_pos.mpr h0
    simp [this]

/-- The stream that ends after `00 00 00`. -/
theorem short_header_behaviour_witness :
    ((NewFramedReadWriteCloser ⟨[[0, 0], [0]], none, [], [], none, 0⟩ 1024).Read 4).1
      = ([], some Error.ErrUnexpectedEOF) :=
  (short_header_behaviour
    (NewFramedReadWriteCloser ⟨[[0, 0], [0]], none, [], [], none, 0⟩ 1024) 4
    rfl (by decide) rfl).2.1 (by decide)


/-! ## Failures of the wrapped stream during `Flush` -/

/-- The error of a `Write` on a stream that keeps to the contract of `io.Writer`:
without an error the count is the full length. -/
theorem Wrapped.Write_contract (w : Wrapped) (p : List Byte) (hc : w.WriterContract) :
    ((w.Write p).2.1 = none → (w.Write p).1 = p.length)
    ∧ (w.Write p).2.2.WriterContract := by
  obtain ⟨segs, rend, out, ws, ce, cl⟩ := w
  cases ws with
  | nil => exact ⟨fun _ => rfl, hc⟩
  | cons o t =>
    have ht : ∀ flt, some flt ∈ t → flt.err ≠ none :=
      fun flt hm => hc flt (List.mem_cons_of_mem _ hm)
    cases o with
    | none => exact ⟨fun _ => rfl, ht⟩
    | some flt =>
      refine ⟨?_, ht⟩
      intro he
      have := hc flt (by simp)
      simp only [Wrapped.Write, Option.map_eq_none'] at he
      exact absurd he this

/-- `Flush` with a non-zero frame size, in terms of the two writes it makes. -/
theorem FramedReadWriteCloser.Flush_eq (f : FramedReadWriteCloser)
    (hl : 0 < f.wbuf.length % 2 ^ 32) :
    f.Flush =
      match f.headerWrite.2.1 with
      | some e => (some e, { f with wrapped := f.headerWrite.2.2 })
      | none =>
        (match f.payloadWrite.2.1 with
          | some e => some e
          | none => if f.payloadWrite.1 ≠ f.wbuf.length then some Error.ErrShortWrite else none,
         { f with wrapped := f.payloadWrite.2.2, wbuf := [] }) := by
  have hpos : f.wbuf.length > 0 := by
    by_contra hc
    have : f.wbuf.length = 0 := by omega
    rw [this] at hl
    simp at hl
  obtain ⟨⟨segs, rend, out, ws, ce, cl⟩, mx, rb, wb⟩ := f
  simp only at hl hpos
  rcases ws with _ | ⟨_ | ⟨a, _ | c⟩, _ | ⟨_ | ⟨a2, _ | c2⟩, t⟩⟩ <;>
    simp only [FramedReadWriteCloser.Flush, gt_iff_lt, hl, if_true, binary.Write, io.Copy,
      Buffer.WriteTo, hpos, FramedReadWriteCloser.payloadWrite,
      FramedReadWriteCloser.headerWrite, Wrapped.Write, Option.map_none', Option.map_some',
      ne_eq, not_true_eq_false, if_false] <;>
    first
      | rfl
      | (split <;> rfl)


/-- C11 (one buffer policy for failed flushes), the code on the two failures.
Write buffer `01 02 03`, maximum 1024, the failing `Write` of the stream taking
no byte and returning the failure 7.  When the write of the four length bytes
fails, `Flush` returns the failure and the write buffer is still `01 02 03`;
when the write of the payload fails, `Flush` returns the failure and the write
buffer is empty. -/
theorem C11_failed_flush_buffer_policies_differ :
    (⟨⟨[], none, [], [some ⟨0, some 7⟩], none, 0⟩, 1024, [], [1, 2, 3]⟩ :
        FramedReadWriteCloser).Flush
      = (some (Error.stream 7), ⟨⟨[], none, [], [], none, 0⟩, 1024, [], [1, 2, 3]⟩)
    ∧ (⟨⟨[], none, [], [none, some ⟨0, some 7⟩], none, 0⟩, 1024, [], [1, 2, 3]⟩ :
        FramedReadWriteCloser).Flush
      = (some (Error.stream 7), ⟨⟨[], none, [0, 0, 0, 3], [], none, 0⟩, 1024, [], []⟩) := by
  decide

/-- C12 (`Flush` propagates write failures).  For every transport whose write
buffer holds between 1 and `2^32 - 1` bytes, over a stream that keeps to the
contract of `io.Writer`: `Flush` returns an error exactly when the write of the
four length bytes returns one, or that write returns none and the write of the
payload returns one; an error `e` of either write is the error `Flush` returns;
and when the write of the length bytes returns an error, the stream is left as
that write left it, so `Flush` hands it no payload byte: what the stream has
taken is its earlier output followed by length bytes only. -/
theorem C12_flush_propagates_write_failures (f : FramedReadWriteCloser)
    (h1 : 1 ≤ f.wbuf.length) (h2 : f.wbuf.length < 2 ^ 32)
    (hc : f.wrapped.WriterContract) :
    (f.Flush.1 ≠ none ↔
        f.headerWrite.2.1 ≠ none ∨ (f.headerWrite.2.1 = none ∧ f.payloadWrite.2.1 ≠ none))
    ∧ (∀ e, f.headerWrite.2.1 = some e →
        f.Flush.1 = some e
        ∧ f.Flush.2.wrapped = f.headerWrite.2.2
        ∧ ∃ k, f.Flush.2.wrapped.out
            = f.wrapped.out ++ (BigEndian.PutUint32 f.wbuf.length).take k)
    ∧ (∀ e, f.headerWrite.2.1 = none → f.payloadWrite.2.1 = some e → f.Flush.1 = some e) := by
  have hmod : f.wbuf.length % 2 ^ 32 = f.wbuf.length := Nat.mod_eq_of_lt h2
  have hfe := FramedReadWriteCloser.Flush_eq f (by rw [hmod]; omega)
  have hc1 := Wrapped.Write_contract f.wrapped
    (BigEndian.PutUint32 (f.wbuf.length % 2 ^ 32)) hc
  have hc2 := Wrapped.Write_contract f.headerWrite.2.2 f.wbuf hc1.2
  have hfull : f.payloadWrite.2.1 = none → f.payloadWrite.1 = f.wbuf.length := hc2.1
  refine ⟨?_, ?_, ?_⟩
  · rw [hfe]
    cases hh : f.headerWrite.2.1 with
    | some e => simp
    | none =>
      cases hp : f.payloadWrite.2.1 with
      | some e => simp
      | none => simp [hfull hp]
  · intro e he
    rw [hfe, he]
    refine ⟨rfl, rfl, ?_⟩
    simp only [FramedReadWriteCloser.headerWrite, hmod]
    obtain ⟨segs, rend, out, ws, ce, cl⟩ := f.wrapped
    rcases ws with _ | ⟨_ | flt, t⟩
    · exact ⟨4, by simp [Wrapped.Write, BigEndian.PutUint32]⟩
    · exact ⟨4, by simp [Wrapped.Write, BigEndian.PutUint32]⟩
    · exact ⟨flt.accepted, rfl⟩
  · intro e hh hp
    rw [hfe, hh, hp]

/-- C12 on a write buffer `01 02 03`: the write of the length bytes succeeds and
the write of the payload takes one byte and returns the failure 7, which is what
`Flush` returns. -/
theorem C12_flush_propagates_write_failures_witness :
    (⟨⟨[], none, [], [none, some ⟨1, some 7⟩], none, 0⟩, 1024, [], [1, 2, 3]⟩ :
        FramedReadWriteCloser).Flush.1 = some (Error.stream 7) :=
  (C12_flush_propagates_write_failures
    ⟨⟨[], none, [], [none, some ⟨1, some 7⟩], none, 0⟩, 1024, [], [1, 2, 3]⟩
    (by decide) (by decide) (by decide)).2.2 (Error.stream 7) (by decide) (by decide)

/-- C13 (`Flush` on an empty write buffer is a no-op).  For every transport whose
write buffer is empty, whatever the stream would do on a `Write`: `Flush`
returns no error and leaves the transport, the wrapped stream with its output
included, exactly as it was. -/
theorem C13_flush_empty_is_noop (f : FramedReadWriteCloser) (hw : f.wbuf = []) :
    f.Flush = (none, f)
    ∧ f.Flush.2.wrapped.out = f.wrapped.out
    ∧ f.Flush.2.wrapped.wscript = f.wrapped.wscript
    ∧ f.Flush.2.wbuf = []
    ∧ f.Flush.2.rbuf = f.rbuf
    ∧ f.Flush.2.maxFrameSize = f.maxFrameSize := by
  have e := FramedReadWriteCloser.Flush_zero f (by rw [hw]; rfl)
  rw [e]
  exact ⟨rfl, rfl, rfl, hw, rfl, rfl⟩

/-- C13 over a stream whose next `Write` would fail: nothing is written and no
error comes back. -/
theorem C13_flush_empty_is_noop_witness :
    (⟨⟨[], none, [9], [some ⟨0, some 7⟩], none, 0⟩, 1024, [5], []⟩ :
        FramedReadWriteCloser).Flush
      = (none, ⟨⟨[], none, [9], [some ⟨0, some 7⟩], none, 0⟩, 1024, [5], []⟩) :=
  (C13_flush_empty_is_noop
    ⟨⟨[], none, [9], [some ⟨0, some 7⟩], none, 0⟩, 1024, [5], []⟩ rfl).1


/-- C14 (a successful `Flush` clears the write buffer).  For every transport
whose write buffer holds between 1 and `2^32 - 1` bytes, over a stream with no
write fault ahead: `Flush` returns no error and leaves the write buffer empty;
a `Flush` repeated at once returns no error and changes nothing, so it writes no
further byte; and after a later `Write(p)` with `1 ≤ len(p) < 2^32` the next
`Flush` appends one more frame, four bytes of value `len(p)` followed by `p`
alone, to what the first `Flush` left on the stream. -/
theorem C14_flush_clears_write_buffer (f : FramedReadWriteCloser) (p : List Byte)
    (hnf : f.wrapped.NonFailing)
    (h1 : 1 ≤ f.wbuf.length) (h2 : f.wbuf.length < 2 ^ 32)
    (hp1 : 1 ≤ p.length) (hp2 : p.length < 2 ^ 32) :
    f.Flush.1 = none
    ∧ f.Flush.2.wbuf = []
    ∧ f.Flush.2.Flush = (none, f.Flush.2)
    ∧ (∃ b0 b1 b2 b3 : Byte,
        b0.val * 2 ^ 24 + b1.val * 2 ^ 16 + b2.val * 2 ^ 8 + b3.val = f.wbuf.length
        ∧ f.Flush.2.wrapped.out = f.wrapped.out ++ [b0, b1, b2, b3] ++ f.wbuf)
    ∧ (∃ c0 c1 c2 c3 : Byte,
        c0.val * 2 ^ 24 + c1.val * 2 ^ 16 + c2.val * 2 ^ 8 + c3.val = p.length
        ∧ ((f.Flush.2.Write p).2.Flush).1 = none
        ∧ ((f.Flush.2.Write p).2.Flush).2.wrapped.out
            = f.Flush.2.wrapped.out ++ [c0, c1, c2, c3] ++ p) := by
  have hmod : f.wbuf.length % 2 ^ 32 = f.wbuf.length := Nat.mod_eq_of_lt h2
  have hmodp : p.length % 2 ^ 32 = p.length := Nat.mod_eq_of_lt hp2
  have hfl := FramedReadWriteCloser.Flush_nonFailing f hnf (by rw [hmod]; omega)
  rw [hmod] at hfl
  have hv := BigEndian.Uint32_PutUint32 f.wbuf.length h2
  have hvp := BigEndian.Uint32_PutUint32 p.length hp2
  unfold BigEndian.PutUint32 at hv hvp
  rw [BigEndian.Uint32_eq] at hv hvp
  obtain ⟨_, hnf1⟩ := Wrapped.Write_nonFailing f.wrapped
    (BigEndian.PutUint32 f.wbuf.length) hnf
  obtain ⟨_, hnf2⟩ := Wrapped.Write_nonFailing _ f.wbuf hnf1
  rw [hfl]
  refine ⟨rfl, rfl, FramedReadWriteCloser.Flush_zero _ rfl, ⟨_, _, _, _, hv, rfl⟩,
    ⟨_, _, _, _, hvp, ?_⟩⟩
  rw [FramedReadWriteCloser.Write_eq]
  simp only [List.nil_append]
  have hfl2 := FramedReadWriteCloser.Flush_nonFailing
    { wrapped := { f.wrapped with
        out := f.wrapped.out ++ BigEndian.PutUint32 f.wbuf.length ++ f.wbuf,
        wscript := f.wrapped.wscript.tail.tail },
      maxFrameSize := f.maxFrameSize, rbuf := f.rbuf, wbuf := p }
    hnf2 (by simp only [hmodp]; omega)
  simp only [hmodp] at hfl2
  rw [hfl2]
  exact ⟨rfl, rfl⟩

/-- C14 on a write buffer `41 42`, followed by `Write(43)` and `Flush`. -/
theorem C14_flush_clears_write_buffer_witness :
    (⟨⟨[], none, [], [], none, 0⟩, 1024, [], [0x41, 0x42]⟩ : FramedReadWriteCloser).Flush
        = (none, ⟨⟨[], none, [0, 0, 0, 2, 0x41, 0x42], [], none, 0⟩, 1024, [], []⟩)
    ∧ (⟨⟨[], none, [], [], none, 0⟩, 1024, [], [0x41, 0x42]⟩ :
          FramedReadWriteCloser).Flush.2.Flush
        = (none, (⟨⟨[], none, [], [], none, 0⟩, 1024, [], [0x41, 0x42]⟩ :
            FramedReadWriteCloser).Flush.2) :=
  ⟨by decide,
    (C14_flush_clears_write_buffer ⟨⟨[], none, [], [], none, 0⟩, 1024, [], [0x41, 0x42]⟩ [0x43]
      (by decide) (by decide) (by decide) (by decide) (by decide)).2.2.1⟩

/-- C15 (`Write` is purely local).  For every transport and every byte slice
`p`, whether `Write(p)` returns an error or not: the wrapped stream after the
call is the stream before it, so nothing was written to it or read from it, and
the read buffer and the maximum are unchanged. -/
theorem C15_write_is_local (f : FramedReadWriteCloser) (p : List Byte) :
    (f.Write p).2.wrapped = f.wrapped
    ∧ (f.Write p).2.wrapped.out = f.wrapped.out
    ∧ (f.Write p).2.wrapped.inbound = f.wrapped.inbound
    ∧ (f.Write p).2.rbuf = f.rbuf
    ∧ (f.Write p).2.maxFrameSize = f.maxFrameSize := by
  rw [FramedReadWriteCloser.Write_eq]
  exact ⟨rfl, rfl, rfl, rfl, rfl⟩

/-- C16 (default maximum).  `NewFramedReadWriteCloser(wrapped, 0)` has the
maximum 1048576, and for every other argument `m` the maximum is `m`; in both
cases the two buffers start empty and the stream is the one given; and `Read`,
`Write`, `Flush` and `Close` leave the maximum of any transport as it is. -/
theorem C16_default_maximum (w : Wrapped) (m : Int) (f : FramedReadWriteCloser)
    (c : Nat) (p : List Byte) :
    (NewFramedReadWriteCloser w 0).maxFrameSize = 1048576
    ∧ (m ≠ 0 → (NewFramedReadWriteCloser w m).maxFrameSize = m)
    ∧ (NewFramedReadWriteCloser w m).rbuf = []
    ∧ (NewFramedReadWriteCloser w m).wbuf = []
    ∧ (NewFramedReadWriteCloser w m).wrapped = w
    ∧ (f.Read c).2.maxFrameSize = f.maxFrameSize
    ∧ (f.Write p).2.maxFrameSize = f.maxFrameSize
    ∧ f.Flush.2.maxFrameSize = f.maxFrameSize
    ∧ f.Close.2.maxFrameSize = f.maxFrameSize := by
  refine ⟨by simp [NewFramedReadWriteCloser, DefaultMaxFrameSize], ?_, rfl, rfl, rfl, ?_, ?_,
    ?_, rfl⟩
  · intro hm; simp [NewFramedReadWriteCloser, hm]
  · unfold FramedReadWriteCloser.Read
    dsimp only
    split
    · split
      · rfl
      · split
        · rfl
        · split <;> rfl
    · rfl
  · rw [FramedReadWriteCloser.Write_eq]
  · unfold FramedReadWriteCloser.Flush
    simp only
    split
    · split <;> rfl
    · rfl

/-- C17 (`Close` does not flush).  For every transport, whatever its write
buffer holds: `Close` returns exactly what `Close` of the wrapped stream
returns; the stream afterwards has its close count one higher and is otherwise
as it was, its output included, so no length byte and no buffered byte was
written; and the buffers and the maximum are unchanged. -/
theorem C17_close_does_not_flush (f : FramedReadWriteCloser) :
    f.Close.1 = f.wrapped.Close.1
    ∧ f.Close.2.wrapped = { f.wrapped with closed := f.wrapped.closed + 1 }
    ∧ f.Close.2.wrapped.closed = f.wrapped.closed + 1
    ∧ f.Close.2.wrapped.out = f.wrapped.out
    ∧ f.Close.2.wrapped.wscript = f.wrapped.wscript
    ∧ f.Close.2.wbuf = f.wbuf
    ∧ f.Close.2.rbuf = f.rbuf
    ∧ f.Close.2.maxFrameSize = f.maxFrameSize :=
  ⟨rfl, rfl, rfl, rfl, rfl, rfl, rfl, rfl⟩


/-! ## Several frames on one stream -/

/-- Encoding messages of 1 to `2^32 - 1` bytes, each within the maximum, on a
transport with an empty write buffer over a stream with no write fault ahead:
no call returns an error, and the stream receives the frames in order. -/
theorem encodeAll_frames (msgs : List (List Byte)) :
    ∀ f : FramedReadWriteCloser, f.wbuf = [] → f.wrapped.NonFailing →
      (∀ x ∈ msgs, 1 ≤ x.length ∧ (x.length : Int) ≤ f.maxFrameSize ∧ x.length < 2 ^ 32) →
      (∀ e ∈ (encodeAll f msgs).1, e = none)
      ∧ (encodeAll f msgs).2.wrapped.out
          = f.wrapped.out
            ++ (msgs.map (fun x => BigEndian.PutUint32 x.length ++ x)).flatten := by
  induction msgs with
  | nil => intro f _ _ _; simp [encodeAll]
  | cons x xs ih =>
    intro f hw hnf hx
    obtain ⟨hx1, hx2, hx3⟩ := hx x (by simp)
    have hmod : x.length % 2 ^ 32 = x.length := Nat.mod_eq_of_lt hx3
    have e1 := FramedReadWriteCloser.Write_eq f x
    rw [hw, List.nil_append, if_neg (by omega)] at e1
    have e2 := FramedReadWriteCloser.Flush_nonFailing { f with wbuf := x } hnf
      (by simp only [hmod]; omega)
    simp only [hmod] at e2
    obtain ⟨_, hnf1⟩ := Wrapped.Write_nonFailing f.wrapped (BigEndian.PutUint32 x.length) hnf
    obtain ⟨_, hnf2⟩ := Wrapped.Write_nonFailing _ x hnf1
    obtain ⟨i1, i2⟩ := ih
      { wrapped := { f.wrapped with
          out := f.wrapped.out ++ BigEndian.PutUint32 x.length ++ x,
          wscript := f.wrapped.wscript.tail.tail },
        maxFrameSize := f.maxFrameSize, rbuf := f.rbuf, wbuf := [] }
      rfl hnf2 (fun y hy => hx y (List.mem_cons_of_mem _ hy))
    simp only [encodeAll, e1, e2]
    refine ⟨?_, ?_⟩
    · intro e he
      simp only [List.mem_cons] at he
      rcases he with h | h | h
      · exact h
      · exact h
      · exact i1 e h
    · rw [i2]
      simp [List.append_assoc]

/-- Reading a stream of whole frames, one `Read` for each frame with a
destination at least as large as the frame, and one `Read` more: each `Read`
returns one payload without an error, and the last one returns `io.EOF`. -/
theorem readEach_frames (msgs : List (List Byte)) :
    ∀ (g : FramedReadWriteCloser) (caps : List Nat), g.rbuf = [] →
      g.wrapped.inbound = (msgs.map (fun x => BigEndian.PutUint32 x.length ++ x)).flatten →
      g.wrapped.rend = none →
      (∀ x ∈ msgs, 1 ≤ x.length ∧ (x.length : Int) ≤ g.maxFrameSize ∧ x.length < 2 ^ 32) →
      (∀ c ∈ caps, g.maxFrameSize ≤ (c : Int)) → caps.length = msgs.length + 1 →
      (readEach g caps).1 = msgs.map (fun x => (x, none)) ++ [([], some Error.EOF)] := by
  induction msgs with
  | nil =>
    intro g caps hr hin hend _ _ hlen
    match caps, hlen with
    | [c], _ =>
      have e := FramedReadWriteCloser.Read_noHeader g c hr
        (by rw [hin]; decide)
      simp only [List.map_nil, List.flatten_nil] at hin
      simp [readEach, e, hin, Wrapped.endError, hend]
  | cons x xs ih =>
    intro g caps hr hin hend hx hcaps hlen
    match caps, hlen with
    | c :: cs, hlen =>
      obtain ⟨hx1, hx2, hx3⟩ := hx x (by simp)
      have hc : g.maxFrameSize ≤ (c : Int) := hcaps c (by simp)
      have hv := BigEndian.Uint32_PutUint32 x.length hx3
      unfold BigEndian.PutUint32 at hv
      rw [BigEndian.Uint32_eq] at hv
      simp only [List.map_cons, List.flatten_cons] at hin
      obtain ⟨segs, e1, e2⟩ := FramedReadWriteCloser.Read_frame g c _ _ _ _ x
        ((xs.map (fun x => BigEndian.PutUint32 x.length ++ x)).flatten) hr
        (by rw [hin]; simp [BigEndian.PutUint32]) hv hx2
      have hne : x ≠ [] := by
        intro h0; rw [h0] at hx1; simp at hx1
      have hbr : Buffer.Read x c = ((x, none), []) := by
        have hcl : x.length ≤ c := by omega
        simp [Buffer.Read, hne, List.take_of_length_le hcl, List.drop_of_length_le hcl]
      rw [hbr] at e1
      have i := ih { g with wrapped := { g.wrapped with rsegs := segs }, rbuf := [] } cs rfl e2
        hend (fun y hy => hx y (List.mem_cons_of_mem _ hy))
        (fun y hy => hcaps y (List.mem_cons_of_mem _ hy))
        (by simpa using hlen)
      simp only [readEach, e1, i, List.map_cons, List.cons_append]


/-- C18 (frame boundaries survive a round trip of several messages).  For every
maximum `m` with `1 ≤ m < 2^32` and every list of messages of 1 to `m` bytes
each: `Write` then `Flush` for each message in order, on a fresh transport over
a stream with no write fault ahead, return no error and append to the stream
exactly one frame for each message in order, a frame being four bytes whose
big-endian value is the length of the message followed by the message; and a
fresh transport with the same `m` over a stream that holds those bytes, in any
segmentation, and then ends, read once for each message and once more with
destinations of capacity at least `m`, returns the messages in order, one whole
message for each `Read` without an error, and then `io.EOF`. -/
theorem C18_multi_message_round_trip (m : Int) (msgs : List (List Byte)) (w r : Wrapped)
    (caps : List Nat) (hm1 : 1 ≤ m) (hm2 : m < 2 ^ 32)
    (hmsgs : ∀ x ∈ msgs, 1 ≤ x.length ∧ (x.length : Int) ≤ m)
    (hw : w.NonFailing)
    (hr : w.out ++ r.inbound = (encodeAll (NewFramedReadWriteCloser w m) msgs).2.wrapped.out)
    (hend : r.rend = none)
    (hcaps : ∀ c ∈ caps, m ≤ (c : Int)) (hlen : caps.length = msgs.length + 1) :
    (∀ e ∈ (encodeAll (NewFramedReadWriteCloser w m) msgs).1, e = none)
    ∧ (∃ frames : List (List Byte),
        List.Forall₂
          (fun fr msg => ∃ b0 b1 b2 b3 : Byte,
            b0.val * 2 ^ 24 + b1.val * 2 ^ 16 + b2.val * 2 ^ 8 + b3.val = msg.length
            ∧ fr = [b0, b1, b2, b3] ++ msg)
          frames msgs
        ∧ (encodeAll (NewFramedReadWriteCloser w m) msgs).2.wrapped.out
            = w.out ++ frames.flatten)
    ∧ (readEach (NewFramedReadWriteCloser r m) caps).1
        = msgs.map (fun x => (x, none)) ++ [([], some Error.EOF)] := by
  have hm0 : m ≠ 0 := by omega
  have hnew : ∀ x : Wrapped, NewFramedReadWriteCloser x m = ⟨x, m, [], []⟩ := by
    intro x; simp [NewFramedReadWriteCloser, hm0]
  have hall : ∀ x ∈ msgs, 1 ≤ x.length ∧ (x.length : Int) ≤ m ∧ x.length < 2 ^ 32 := by
    intro x hx
    obtain ⟨a, b⟩ := hmsgs x hx
    exact ⟨a, b, by omega⟩
  rw [hnew w] at hr ⊢
  rw [hnew r]
  obtain ⟨e1, e2⟩ := encodeAll_frames msgs ⟨w, m, [], []⟩ rfl hw hall
  have hin : r.inbound = (msgs.map (fun x => BigEndian.PutUint32 x.length ++ x)).flatten :=
    List.append_cancel_left (hr.trans e2)
  refine ⟨e1, ⟨msgs.map (fun x => BigEndian.PutUint32 x.length ++ x), ?_, ?_⟩, ?_⟩
  · rw [List.forall₂_map_left_iff, List.forall₂_same]
    intro x hx
    have hv := BigEndian.Uint32_PutUint32 x.length (hall x hx).2.2
    unfold BigEndian.PutUint32 at hv
    rw [BigEndian.Uint32_eq] at hv
    exact ⟨_, _, _, _, hv, rfl⟩
  · exact e2
  · exact readEach_frames msgs ⟨r, m, [], []⟩ caps rfl hin hend hall hcaps hlen

/-- C18 at `m = 4` with the messages `41 42 43` and `44`, the emitted bytes
arriving in three segments and read with capacities 4, 9 and 4. -/
theorem C18_multi_message_round_trip_witness :
    (encodeAll (NewFramedReadWriteCloser ⟨[], none, [], [], none, 0⟩ 4)
        [[0x41, 0x42, 0x43], [0x44]]).2.wrapped.out
      = [0, 0, 0, 3, 0x41, 0x42, 0x43, 0, 0, 0, 1, 0x44]
    ∧ (readEach (NewFramedReadWriteCloser
          ⟨[[0, 0, 0, 3, 0x41], [0x42, 0x43, 0, 0], [0, 1, 0x44]], none, [], [], none, 0⟩ 4)
        [4, 9, 4]).1
      = ([[0x41, 0x42, 0x43], [0x44]] : List (List Byte)).map (fun x => (x, none))
          ++ [([], some Error.EOF)] :=
  ⟨by decide,
    (C18_multi_message_round_trip 4 [[0x41, 0x42, 0x43], [0x44]] ⟨[], none, [], [], none, 0⟩
      ⟨[[0, 0, 0, 3, 0x41], [0x42, 0x43, 0, 0], [0, 1, 0x44]], none, [], [], none, 0⟩ [4, 9, 4]
      (by decide) (by decide) (by decide) (by decide) (by decide) rfl (by decide)
      (by decide)).2.2⟩

/-- A `Write` of the wrapped stream never returns an `ErrFrameTooBig`. -/
theorem Wrapped.Write_not_tooBig (w : Wrapped) (p : List Byte) (a b : Int) :
    (w.Write p).2.1 ≠ some (Error.ErrFrameTooBig a b) := by
  obtain ⟨segs, rend, out, ws, ce, cl⟩ := w
  rcases ws with _ | ⟨_ | ⟨k, _ | c⟩, t⟩ <;> simp [Wrapped.Write]

/-- C19 (`Flush` does not enforce the size bound).  For every transport with a
maximum `m ≥ 1` whose write buffer holds `L` bytes with `m < L < 2^32`, over a
stream with no write fault ahead: `Flush` returns no error and appends the whole
frame, four bytes of value `L` followed by the buffer; a fresh transport with
the same `m` reading the emitted bytes fails with `ErrFrameTooBig{L, m}`; and no
`Flush` of any transport returns an `ErrFrameTooBig`. -/
theorem C19_flush_ignores_bound (f : FramedReadWriteCloser) (r : Wrapped) (c : Nat)
    (hnf : f.wrapped.NonFailing) (hm : 1 ≤ f.maxFrameSize)
    (hL : f.maxFrameSize < (f.wbuf.length : Int)) (hL2 : f.wbuf.length < 2 ^ 32)
    (hr : f.wrapped.out ++ r.inbound = f.Flush.2.wrapped.out) :
    f.Flush.1 = none
    ∧ (∃ b0 b1 b2 b3 : Byte,
        b0.val * 2 ^ 24 + b1.val * 2 ^ 16 + b2.val * 2 ^ 8 + b3.val = f.wbuf.length
        ∧ f.Flush.2.wrapped.out = f.wrapped.out ++ [b0, b1, b2, b3] ++ f.wbuf)
    ∧ ((NewFramedReadWriteCloser r f.maxFrameSize).Read c).1
        = ([], some (Error.ErrFrameTooBig (f.wbuf.length : Int) f.maxFrameSize))
    ∧ (∀ (g : FramedReadWriteCloser) (a b : Int),
        g.Flush.1 ≠ some (Error.ErrFrameTooBig a b)) := by
  have hmod : f.wbuf.length % 2 ^ 32 = f.wbuf.length := Nat.mod_eq_of_lt hL2
  have hfl := FramedReadWriteCloser.Flush_nonFailing f hnf (by rw [hmod]; omega)
  rw [hmod] at hfl
  have hv := BigEndian.Uint32_PutUint32 f.wbuf.length hL2
  unfold BigEndian.PutUint32 at hv
  rw [BigEndian.Uint32_eq] at hv
  rw [hfl] at hr ⊢
  have hin : r.inbound = BigEndian.PutUint32 f.wbuf.length ++ f.wbuf := by
    simpa [List.append_assoc] using hr
  have hm0 : f.maxFrameSize ≠ 0 := by omega
  refine ⟨rfl, ⟨_, _, _, _, hv, rfl⟩, ?_, ?_⟩
  · have hnew : NewFramedReadWriteCloser r f.maxFrameSize = ⟨r, f.maxFrameSize, [], []⟩ := by
      simp [NewFramedReadWriteCloser, hm0]
    rw [hnew]
    obtain ⟨segs, e, _⟩ := FramedReadWriteCloser.Read_tooBig ⟨r, f.maxFrameSize, [], []⟩ c
      (Fin.ofNat (f.wbuf.length >>> 24)) (Fin.ofNat (f.wbuf.length >>> 16))
      (Fin.ofNat (f.wbuf.length >>> 8)) (Fin.ofNat f.wbuf.length) f.wbuf rfl
      (by rw [hin]; simp [BigEndian.PutUint32]) (by rw [hv]; exact hL)
    rw [e, hv]
  · intro g a b
    by_cases hz : g.wbuf.length % 2 ^ 32 = 0
    · rw [FramedReadWriteCloser.Flush_zero g hz]
      simp
    · rw [FramedReadWriteCloser.Flush_eq g (Nat.pos_of_ne_zero hz)]
      have n1 := Wrapped.Write_not_tooBig g.wrapped
        (BigEndian.PutUint32 (g.wbuf.length % 2 ^ 32)) a b
      have n2 := Wrapped.Write_not_tooBig g.headerWrite.2.2 g.wbuf a b
      change g.headerWrite.2.1 ≠ _ at n1
      change g.payloadWrite.2.1 ≠ _ at n2
      cases hh : g.headerWrite.2.1 with
      | some e =>
        rw [hh] at n1
        simpa using n1
      | none =>
        cases hp : g.payloadWrite.2.1 with
        | some e =>
          rw [hp] at n2
          simpa using n2
        | none =>
          simp only
          split <;> simp

/-- C19 from a fresh transport with maximum 2: `Write(01 02 03)` reports
`ErrFrameTooBig{3, 2}` and keeps the bytes, `Flush` then emits the frame without
an error, and a reader with maximum 2 rejects it. -/
theorem C19_flush_ignores_bound_witness :
    ((NewFramedReadWriteCloser ⟨[], none, [], [], none, 0⟩ 2).Write [1, 2, 3]).1
        = (3, some (Error.ErrFrameTooBig 3 2))
    ∧ ((NewFramedReadWriteCloser ⟨[], none, [], [], none, 0⟩ 2).Write [1, 2, 3]).2.Flush
        = (none, ⟨⟨[], none, [0, 0, 0, 3, 1, 2, 3], [], none, 0⟩, 2, [], []⟩)
    ∧ ((NewFramedReadWriteCloser ⟨[[0, 0, 0, 3, 1, 2, 3]], none, [], [], none, 0⟩
          ((NewFramedReadWriteCloser ⟨[], none, [], [], none, 0⟩ 2).Write
            [1, 2, 3]).2.maxFrameSize).Read 8).1
        = ([], some (Error.ErrFrameTooBig
            ((((NewFramedReadWriteCloser ⟨[], none, [], [], none, 0⟩ 2).Write
              [1, 2, 3]).2.wbuf.length : Nat) : Int)
            ((NewFramedReadWriteCloser ⟨[], none, [], [], none, 0⟩ 2).Write
              [1, 2, 3]).2.maxFrameSize)) :=
  ⟨by decide, by decide,
    (C19_flush_ignores_bound
      ((NewFramedReadWriteCloser ⟨[], none, [], [], none, 0⟩ 2).Write [1, 2, 3]).2
      ⟨[[0, 0, 0, 3, 1, 2, 3]], none, [], [], none, 0⟩ 8
      (by decide) (by decide) (by decide) (by decide) (by decide)).2.2.1⟩


/-- C20 (the length bytes carry the buffer length modulo `2^32`).  For every
transport with a write buffer of `L` bytes over a stream with no write fault
ahead: when `L mod 2^32` is zero, which covers every non-zero multiple of
`2^32`, `Flush` returns no error and leaves the transport, the stream and the
`L` buffered bytes as they were; otherwise `Flush` returns no error and appends
four bytes whose big-endian value is `L mod 2^32`, followed by all `L` bytes of
the buffer, and that value is `L` when `L < 2^32` and is less than `L` when
`L ≥ 2^32`. -/
theorem C20_length_is_mod_2_32 (f : FramedReadWriteCloser) (hnf : f.wrapped.NonFailing) :
    (f.wbuf.length % 2 ^ 32 = 0 → f.Flush = (none, f))
    ∧ (f.wbuf.length % 2 ^ 32 ≠ 0 →
        ∃ b0 b1 b2 b3 : Byte,
          b0.val * 2 ^ 24 + b1.val * 2 ^ 16 + b2.val * 2 ^ 8 + b3.val
              = f.wbuf.length % 2 ^ 32
          ∧ f.Flush.1 = none
          ∧ f.Flush.2.wrapped.out = f.wrapped.out ++ [b0, b1, b2, b3] ++ f.wbuf
          ∧ (f.wbuf.length < 2 ^ 32 →
              b0.val * 2 ^ 24 + b1.val * 2 ^ 16 + b2.val * 2 ^ 8 + b3.val = f.wbuf.length)
          ∧ (2 ^ 32 ≤ f.wbuf.length →
              b0.val * 2 ^ 24 + b1.val * 2 ^ 16 + b2.val * 2 ^ 8 + b3.val
                < f.wbuf.length)) := by
  refine ⟨FramedReadWriteCloser.Flush_zero f, ?_⟩
  intro hz
  have hlt : f.wbuf.length % 2 ^ 32 < 2 ^ 32 := Nat.mod_lt _ (by decide)
  have hfl := FramedReadWriteCloser.Flush_nonFailing f hnf (Nat.pos_of_ne_zero hz)
  have hv := BigEndian.Uint32_PutUint32 (f.wbuf.length % 2 ^ 32) hlt
  unfold BigEndian.PutUint32 at hv
  rw [BigEndian.Uint32_eq] at hv
  refine ⟨_, _, _, _, hv, ?_, ?_, ?_, ?_⟩
  · rw [hfl]
  · rw [hfl]; rfl
  · intro h; rw [hv]; exact Nat.mod_eq_of_lt h
  · intro h; rw [hv]; omega

/-- C20 on a write buffer of `2^32 + 5` bytes: `Flush` returns no error and the
length bytes it emits have the value 5. -/
theorem C20_length_is_mod_2_32_witness :
    ∃ b0 b1 b2 b3 : Byte,
      b0.val * 2 ^ 24 + b1.val * 2 ^ 16 + b2.val * 2 ^ 8 + b3.val = 5
      ∧ (⟨⟨[], none, [], [], none, 0⟩, 1024, [], List.replicate (2 ^ 32 + 5) 0⟩ :
            FramedReadWriteCloser).Flush.1 = none
      ∧ (⟨⟨[], none, [], [], none, 0⟩, 1024, [], List.replicate (2 ^ 32 + 5) 0⟩ :
            FramedReadWriteCloser).Flush.2.wrapped.out
          = [b0, b1, b2, b3] ++ List.replicate (2 ^ 32 + 5) 0 := by
  have key : ∀ l : List Byte, l.length = 2 ^ 32 + 5 →
      ∃ b0 b1 b2 b3 : Byte,
        b0.val * 2 ^ 24 + b1.val * 2 ^ 16 + b2.val * 2 ^ 8 + b3.val = 5
        ∧ (⟨⟨[], none, [], [], none, 0⟩, 1024, [], l⟩ : FramedReadWriteCloser).Flush.1 = none
        ∧ (⟨⟨[], none, [], [], none, 0⟩, 1024, [], l⟩ :
              FramedReadWriteCloser).Flush.2.wrapped.out = [b0, b1, b2, b3] ++ l := by
    intro l hl
    have hmod : l.length % 2 ^ 32 = 5 := by rw [hl]; norm_num
    have hne : l.length % 2 ^ 32 ≠ 0 := by rw [hmod]; decide
    obtain ⟨b0, b1, b2, b3, hv, he, ho, _, _⟩ :=
      (C20_length_is_mod_2_32 ⟨⟨[], none, [], [], none, 0⟩, 1024, [], l⟩
        (by simp [Wrapped.NonFailing])).2 hne
    exact ⟨b0, b1, b2, b3, hv.trans hmod, he, by rw [ho]; simp⟩
  exact key _ (List.length_replicate _ _)


/-! ## What the code does on a failed `Flush` -/

/-- The write buffer after a `Flush` with a non-zero frame size.  For every
transport: when the write of the four length bytes returns an error the write
buffer is kept as it was, and when that write returns no error the write buffer
is empty afterwards, whatever the write of the payload returned. -/
theorem flush_failure_buffer_behaviour (f : FramedReadWriteCloser)
    (hl : 0 < f.wbuf.length % 2 ^ 32) :
    (∀ e, f.headerWrite.2.1 = some e → f.Flush.1 = some e ∧ f.Flush.2.wbuf = f.wbuf)
    ∧ (f.headerWrite.2.1 = none → f.Flush.2.wbuf = []) := by
  have hfe := FramedReadWriteCloser.Flush_eq f hl
  refine ⟨?_, ?_⟩
  · intro e he
    rw [hfe, he]
    exact ⟨rfl, rfl⟩
  · intro he
    rw [hfe, he]

/-- A failing write of the length bytes on a write buffer `01 02 03`. -/
theorem flush_failure_buffer_behaviour_witness :
    (⟨⟨[], none, [], [some ⟨2, some 7⟩], none, 0⟩, 1024, [], [1, 2, 3]⟩ :
        FramedReadWriteCloser).Flush.1 = some (Error.stream 7)
    ∧ (⟨⟨[], none, [], [some ⟨2, some 7⟩], none, 0⟩, 1024, [], [1, 2, 3]⟩ :
        FramedReadWriteCloser).Flush.2.wbuf
      = (⟨⟨[], none, [], [some ⟨2, some 7⟩], none, 0⟩, 1024, [], [1, 2, 3]⟩ :
        FramedReadWriteCloser).wbuf :=
  (flush_failure_buffer_behaviour
    ⟨⟨[], none, [], [some ⟨2, some 7⟩], none, 0⟩, 1024, [], [1, 2, 3]⟩ (by decide)).1
    (Error.stream 7) (by decide)

/-- A payload write that breaks the contract of `io.Writer`.  For every transport
with a non-zero frame size: when both writes return no error and the write of
the payload reports fewer bytes than the buffer holds, `Flush` returns
`io.ErrShortWrite`. -/
theorem flush_short_write_behaviour (f : FramedReadWriteCloser)
    (hl : 0 < f.wbuf.length % 2 ^ 32) (hh : f.headerWrite.2.1 = none)
    (hp : f.payloadWrite.2.1 = none) (hn : f.payloadWrite.1 ≠ f.wbuf.length) :
    f.Flush.1 = some Error.ErrShortWrite := by
  rw [FramedReadWriteCloser.Flush_eq f hl, hh, hp]
  simp [hn]

/-- A payload write that takes one byte of three and reports no error. -/
theorem flush_short_write_behaviour_witness :
    (⟨⟨[], none, [], [none, some ⟨1, none⟩], none, 0⟩, 1024, [], [1, 2, 3]⟩ :
        FramedReadWriteCloser).Flush.1 = some Error.ErrShortWrite :=
  flush_short_write_behaviour
    ⟨⟨[], none, [], [none, some ⟨1, none⟩], none, 0⟩, 1024, [], [1, 2, 3]⟩
    (by decide) (by decide) (by decide) (by decide)

end Thrift
